import Mathlib

/-!
# Hand-driven synthesizer (main.js): embedding and checked properties

JavaScript numbers are modelled as rationals (type ℚ); integer-valued numbers
(array indices, floor results, semitone offsets) as ℤ.  The arithmetic of the
intensity in mapHandToParams and of the knob conversions valueToAngle and
angleToValue is rounded to binary64 after every operation by the function fl;
overflow to an infinity is not modelled, and the theorems that depend on the
rounding bound the magnitudes so that none occurs.  The value undefined is
modelled with Option.  Calls into the audio library, the canvas and the recorder
API are modelled by the state they change.
-/

namespace VidSynth

/-! ## Binary64 rounding -/

/-- Rounding of a non-negative number to the nearest integer, a tie going to the
even neighbour. -/
def roundHalfEven (z : ℚ) : ℤ :=
  if z - ⌊z⌋ < 1 / 2 then ⌊z⌋
  else if 1 / 2 < z - ⌊z⌋ then ⌊z⌋ + 1
  else if ⌊z⌋ % 2 = 0 then ⌊z⌋ else ⌊z⌋ + 1

/-- The binary exponent of the binary64 format at q: the exponent e with
2^e ≤ |q| < 2^(e+1), and -1022 throughout the subnormal range. -/
def binade (q : ℚ) : ℤ := max (Int.log 2 |q|) (-1022)

/-- The spacing of binary64 numbers around q (53 significant bits). -/
def quantum (q : ℚ) : ℚ := 2 ^ (binade q - 52)

/-- The binary64 number nearest to q, ties to even, with gradual underflow: the
result of a JavaScript arithmetic operation whose exact result is q, and the value
of a decimal literal or of parseFloat on a decimal string denoting q. -/
def fl (q : ℚ) : ℚ := SignType.sign q * (roundHalfEven (|q| / quantum q) * quantum q)

/-! ## Parameter mapper -/

/-- Result object of mapHandToParams: the fields chordIndex and intensity. -/
structure ChordParams where
  chordIndex : ℤ
  intensity : ℚ
  deriving DecidableEq

/-- The function mapHandToParams(x, y): chordIndex is Math.floor(x * 5), taken on
the exact product, and intensity is 0.2 + 0.8 * (1 - y) with the two literals and
the three operations rounded to binary64. -/
def mapHandToParams (x y : ℚ) : ChordParams :=
  { chordIndex := ⌊x * 5⌋
    intensity := fl (fl (2 / 10) + fl (fl (8 / 10) * fl (1 - y))) }

/-- The table roots of root note names. -/
def roots : List String := ["C4", "D4", "E4", "G3", "A3"]

/-- The JavaScript remainder operator on integer-valued numbers: the result
takes the sign of the dividend (truncated division). -/
def jsRem (a b : ℤ) : ℤ := Int.tmod a b

/-- Array indexing xs[i] with an integer-valued number: undefined (none) when the
index is negative or past the end. -/
def jsIndex {α : Type} (xs : List α) (i : ℤ) : Option α :=
  if 0 ≤ i then xs[i.toNat]? else none

/-- The index expression chordIndex % roots.length evaluated in loop. -/
def rootIndex (p : ChordParams) : ℤ := jsRem p.chordIndex (roots.length : ℤ)

/-- The lookup roots[chordIndex % roots.length] evaluated in loop. -/
def rootOf (p : ChordParams) : Option String := jsIndex roots (rootIndex p)

/-! ## Chord construction -/

/-- The operations of the audio library's Frequency class that buildChord calls,
for a type of note names and a type of frequency values.  The library is an
external collaborator, so its operations are a parameter of the embedding. -/
structure ToneFrequency (Note Freq : Type) where
  /-- The expression Tone.Frequency(note).toFrequency(). -/
  toFrequency : Note → Freq
  /-- The expression Tone.Frequency(freq).transpose(s).toNote(). -/
  freqTransposeToNote : Freq → ℤ → Note
  /-- The expression Tone.Frequency(note).transpose(s).toNote(). -/
  noteTransposeToNote : Note → ℤ → Note

/-- One insertion into a JavaScript Set kept in insertion order: a value that is
already present is ignored. -/
def setAdd {α : Type} [DecidableEq α] (acc : List α) (x : α) : List α :=
  if x ∈ acc then acc else acc ++ [x]

/-- The expression Array.from(new Set(xs)): the distinct values of xs in order of
first occurrence. -/
def arrayFromSet {α : Type} [DecidableEq α] (xs : List α) : List α :=
  xs.foldl setAdd []

/-- The local constant major of buildChord. -/
def major : List ℤ := [0, 4, 7]

/-- The function buildChord(root, semitoneOffsetA, semitoneOffsetB). -/
def buildChord {Note Freq : Type} [DecidableEq Note] (T : ToneFrequency Note Freq)
    (root : Note) (semitoneOffsetA semitoneOffsetB : ℤ) : List Note :=
  let rootFreq := T.toFrequency root
  let notes := major.map (fun s => T.freqTransposeToNote rootFreq s)
  let a := T.noteTransposeToNote root semitoneOffsetA
  let b := T.noteTransposeToNote root semitoneOffsetB
  arrayFromSet (notes ++ [a, b])

/-- An equal-tempered instance of the library operations in which a note and a
frequency are both identified with a MIDI note number and transposition adds
semitones. -/
def midiTone : ToneFrequency ℤ ℤ :=
  { toFrequency := fun n => n
    freqTransposeToNote := fun f s => f + s
    noteTransposeToNote := fun n s => n + s }

/-- Pitch-class names in the order used by the library for note names. -/
def scaleIndexToNote : List String :=
  ["C", "C#", "D", "D#", "E", "F", "F#", "G", "G#", "A", "A#", "B"]

/-- The note name of a MIDI note number: pitch class followed by the octave, with
MIDI number 60 named C4. -/
def midiToNote (m : ℤ) : String :=
  scaleIndexToNote.getD (m % 12).toNat "" ++ toString (m / 12 - 1)

/-! ## Gesture loop -/

/-- A landmark of a detected hand, in normalized coordinates. -/
structure Landmark where
  x : ℚ
  y : ℚ
  deriving DecidableEq

/-- One call triggerChord(root, velocity) made by loop, together with the value of
now at which it was made. -/
structure ChordCall where
  time : ℚ
  root : Option String
  velocity : ℚ
  deriving DecidableEq

/-- The module state read and written by loop: the flag running, the variable
lastTrigTime, the chord calls made so far (most recent first) and the target of
the last filter.frequency.rampTo call. -/
structure LoopState where
  running : Bool
  lastTrigTime : ℚ
  chordCalls : List ChordCall
  cutoff : ℚ
  deriving DecidableEq

/-- What one iteration of loop observes: the value returned by performance.now()
inside the callback, and res.landmarks reduced to the wrist lm[0] of each detected
hand (none when the detector is missing or gave no landmarks). -/
structure Frame where
  now : ℚ
  landmarks : Option (List Landmark)
  deriving DecidableEq

/-- The module state when the script has been loaded. -/
def loopInit : LoopState :=
  { running := false, lastTrigTime := 0, chordCalls := [], cutoff := 1200 }

/-- The callback passed to res.landmarks.forEach, for the hand with index i whose
wrist is given; drawing on the canvas is left out. -/
def handCallback (now : ℚ) (s : LoopState) (i : ℕ) (wrist : Landmark) : LoopState :=
  let p := mapHandToParams wrist.x wrist.y
  if i = 0 then
    let s1 : LoopState :=
      if now - s.lastTrigTime > 200 then
        { s with
          chordCalls := { time := now, root := rootOf p, velocity := p.intensity } :: s.chordCalls
          lastTrigTime := now }
      else s
    { s1 with cutoff := 300 + (1 - wrist.y) * 4000 }
  else s

/-- The method forEach of an array: the callback runs on each element with its
index, in order, starting at index i. -/
def forEachFrom {σ α : Type} (f : σ → ℕ → α → σ) : ℕ → σ → List α → σ
  | _, s, [] => s
  | i, s, a :: rest => forEachFrom f (i + 1) (f s i a) rest

/-- One iteration of the function loop. -/
def loop (s : LoopState) (f : Frame) : LoopState :=
  if s.running then
    match f.landmarks with
    | some lms => forEachFrom (handCallback f.now) 0 s lms
    | none => s
  else s

/-- The events that change the loop state: an iteration of loop, a click on the
power-on button (startAll) and a click on the power-off button. -/
inductive LoopEvent where
  | iteration (f : Frame)
  | powerOn
  | powerOff
  deriving DecidableEq

/-- The effect of one event on the loop state. -/
def loopEvent (s : LoopState) : LoopEvent → LoopState
  | .iteration f => loop s f
  | .powerOn => if s.running then s else { s with running := true }
  | .powerOff => { s with running := false }

/-! ## Synth options: envelope and waveform -/

/-- The envelope options of the synth. -/
structure Envelope where
  attack : ℚ
  decay : ℚ
  sustain : ℚ
  release : ℚ
  deriving DecidableEq

/-- The options of the synth that the script sets. -/
structure SynthOptions where
  oscillatorType : String
  envelope : Envelope
  deriving DecidableEq

/-- The options given to the PolySynth constructor. -/
def synthInit : SynthOptions :=
  { oscillatorType := "sine"
    envelope := { attack := 2 / 100, decay := 2 / 10, sustain := 5 / 10, release := 12 / 10 } }

/-- The input handler of the decay knob, where d is parseFloat(decay.value). -/
def decayInput (d : ℚ) (s : SynthOptions) : SynthOptions :=
  { s with
    envelope := { attack := 2 / 100, decay := d, sustain := 55 / 100, release := max (4 / 10) d } }

/-- The table waves. -/
def waves : List String := ["sine", "square", "triangle", "sawtooth"]

/-- The state touched by the waveform toggle: the variables currentWave and
waveIndex, the text of the toggle button and the synth options. -/
structure WaveState where
  currentWave : String
  waveIndex : ℕ
  buttonText : String
  synth : SynthOptions
  deriving DecidableEq

/-- The string method toUpperCase, character by character. -/
def toUpperCase (w : String) : String := String.mk (w.data.map Char.toUpper)

/-- The function updateWave; none stands for the TypeError raised when the table
lookup gives undefined. -/
def updateWave (s : WaveState) : Option WaveState :=
  match waves[s.waveIndex % waves.length]? with
  | some w =>
    some { s with
      currentWave := w
      buttonText := toUpperCase w
      synth := { s.synth with oscillatorType := w } }
  | none => none

/-- The click handler of the waveform toggle. -/
def waveToggleClick (s : WaveState) : Option WaveState :=
  updateWave { s with waveIndex := (s.waveIndex + 1) % waves.length }

/-- The wave state before the first call of updateWave, for a given initial text
of the button. -/
def waveDeclared (text : String) : WaveState :=
  { currentWave := "sine", waveIndex := 0, buttonText := text, synth := synthInit }

/-- The wave state when the script has been loaded: the declarations followed by
the top-level call updateWave(). -/
def waveInit (text : String) : Option WaveState := updateWave (waveDeclared text)

/-- The state reached from s by n clicks on the waveform toggle. -/
def waveClicks : ℕ → WaveState → Option WaveState
  | 0, s => some s
  | n + 1, s => (waveToggleClick s).bind (waveClicks n)

/-- The state after the script has loaded and the toggle was clicked n times. -/
def waveAfterClicks (text : String) (n : ℕ) : Option WaveState :=
  (waveInit text).bind (waveClicks n)

/-- The waveform that follows a given one in the order sine, square, triangle,
sawtooth and back to sine, as the specification words the cycle; none for a string
that is not a waveform. -/
def nextWave (w : String) : Option String :=
  if w = "sine" then some "square"
  else if w = "square" then some "triangle"
  else if w = "triangle" then some "sawtooth"
  else if w = "sawtooth" then some "sine"
  else none

/-- The wave state in which waveIndex is i and updateWave has run. -/
def waveStateAt (i : ℕ) : WaveState :=
  { currentWave := waves.getD i ""
    waveIndex := i
    buttonText := toUpperCase (waves.getD i "")
    synth := { synthInit with oscillatorType := waves.getD i "" } }

/-! ## Circular knob -/

/-- The constants minVal, maxVal and stepVal of attachCircularKnob. -/
structure Knob where
  minVal : ℚ
  maxVal : ℚ
  stepVal : ℚ
  deriving DecidableEq

/-- The constant angleMin, in degrees. -/
def angleMin : ℚ := -135

/-- The constant angleMax, in degrees. -/
def angleMax : ℚ := 135

/-- The constants computed by attachCircularKnob from the numbers that parseFloat
gives for the attributes min, max and step of the element; a step of zero is
replaced by 1. -/
def attachCircularKnob (min max step : ℚ) : Knob :=
  { minVal := min, maxVal := max, stepVal := if step = 0 then 1 else step }

/-- The function Math.round: the integer nearest to the number given, a tie going
to the larger one. -/
def jsRound (x : ℚ) : ℤ := ⌊x + 1 / 2⌋

/-- The inner function valueToAngle, every operation rounded to binary64. -/
def valueToAngle (k : Knob) (v : ℚ) : ℚ :=
  let t := fl (fl (v - k.minVal) / fl (k.maxVal - k.minVal))
  fl (angleMin + fl (t * fl (angleMax - angleMin)))

/-- The inner function angleToValue, every operation rounded to binary64. -/
def angleToValue (k : Knob) (a : ℚ) : ℚ :=
  let t := fl (fl (a - angleMin) / fl (angleMax - angleMin))
  let raw := fl (k.minVal + fl (t * fl (k.maxVal - k.minVal)))
  fl ((jsRound (fl (raw / k.stepVal)) : ℚ) * k.stepVal)

/-! ## Recorder -/

/-- The attribute state of a MediaRecorder, as far as the script drives it. -/
inductive RecorderStatus where
  | recording
  | inactive
  deriving DecidableEq

/-- How one invocation of an asynchronous click handler ends: its promise is
fulfilled, is rejected by an exception, or never settles. -/
inductive Outcome where
  | returned
  | threw
  | pending
  deriving DecidableEq

/-- The state touched by the recording handlers: whether the capture graph exists,
the variable mediaRecorder (none for undefined), the sizes of the blobs in
recordedChunks, the disabled flags of the two buttons, the number of calls of
stop made on a recorder and the file names handed to downloadBlob. -/
structure RecorderState where
  graphReady : Bool
  mediaRecorder : Option RecorderStatus
  recordedChunks : List ℕ
  recordBtnDisabled : Bool
  finishBtnDisabled : Bool
  stopCalls : ℕ
  downloads : List String
  deriving DecidableEq

/-- What the browser contributes to one run of the finish handler: the selected
format, the size of the blob delivered when the recorder stops, whether
decodeAudioData succeeds, and whether stop on an inactive recorder raises
InvalidStateError (otherwise it returns and no stop event follows). -/
structure FinishEnv where
  wantVideo : Bool
  finalData : ℕ
  decodeOk : Bool
  stopInactiveThrows : Bool
  deriving DecidableEq

/-- The recorder state when the script has been loaded, for given disabled flags
of the record and finish buttons in the page. -/
def recorderInit (recordDisabled finishDisabled : Bool) : RecorderState :=
  { graphReady := false, mediaRecorder := none, recordedChunks := []
    recordBtnDisabled := recordDisabled, finishBtnDisabled := finishDisabled
    stopCalls := 0, downloads := [] }

/-- The handler ondataavailable for a blob of the given size. -/
def onDataAvailable (size : ℕ) (s : RecorderState) : RecorderState :=
  if size ≠ 0 then { s with recordedChunks := s.recordedChunks ++ [size] } else s

/-- The click listener of the record button. -/
def recordHandler (s : RecorderState) : RecorderState :=
  { s with
    graphReady := true
    recordedChunks := []
    mediaRecorder := some RecorderStatus.recording
    recordBtnDisabled := true
    finishBtnDisabled := false }

/-- The click listener of the finish button. -/
def finishHandler (env : FinishEnv) (s : RecorderState) : Outcome × RecorderState :=
  match s.mediaRecorder with
  | none => (Outcome.returned, s)
  | some RecorderStatus.inactive =>
    let s1 := { s with stopCalls := s.stopCalls + 1 }
    if env.stopInactiveThrows then (Outcome.threw, s1) else (Outcome.pending, s1)
  | some RecorderStatus.recording =>
    let s1 := onDataAvailable env.finalData
      { s with stopCalls := s.stopCalls + 1, mediaRecorder := some RecorderStatus.inactive }
    if env.wantVideo then
      (Outcome.returned,
        { s1 with
          downloads := s1.downloads ++ ["recording.webm"]
          recordBtnDisabled := false
          finishBtnDisabled := true })
    else if env.decodeOk then
      (Outcome.returned,
        { s1 with
          downloads := s1.downloads ++ ["recording.mp3"]
          recordBtnDisabled := false
          finishBtnDisabled := true })
    else (Outcome.threw, s1)

/-- A click of the user on the finish button: a disabled button dispatches no
click event. -/
def finishBtnClick (env : FinishEnv) (s : RecorderState) : Outcome × RecorderState :=
  if s.finishBtnDisabled then (Outcome.returned, s) else finishHandler env s

/-- The recorder state after a click on record followed by a finish whose export
succeeds (video mode when wantVideo is set, audio mode otherwise). -/
def afterFinish (recordDisabled finishDisabled wantVideo throws : Bool) (size : ℕ) :
    RecorderState :=
  (finishHandler
    { wantVideo := wantVideo, finalData := size, decodeOk := true, stopInactiveThrows := throws }
    (recordHandler (recorderInit recordDisabled finishDisabled))).2

/-- The recorder state after a click on record followed by a click on finish in
audio mode whose decoding step fails. -/
def afterFailedExport (recordDisabled finishDisabled throws : Bool) (size : ℕ) :
    RecorderState :=
  (finishBtnClick
    { wantVideo := false, finalData := size, decodeOk := false, stopInactiveThrows := throws }
    (recordHandler (recorderInit recordDisabled finishDisabled))).2

/-! ## Invariant of the chord trigger log -/

/-- The invariant kept by every event: successive chord calls are more than 200 ms
apart, no call is later than lastTrigTime, and lastTrigTime is the time of the
most recent call (0 before the first call). -/
def TrigInv (s : LoopState) : Prop :=
  s.chordCalls.Pairwise (fun later earlier => later.time - earlier.time > 200) ∧
    (∀ c ∈ s.chordCalls, c.time ≤ s.lastTrigTime) ∧
    (match s.chordCalls with
      | [] => s.lastTrigTime = 0
      | c :: _ => s.lastTrigTime = c.time)

/-! ## Properties of binary64 rounding -/

/-- Rounding to nearest never goes below the floor. -/
theorem floor_le_roundHalfEven (z : ℚ) : ⌊z⌋ ≤ roundHalfEven z := by
  unfold roundHalfEven
  split_ifs <;> omega

/-- Rounding to nearest never goes above the floor plus one. -/
theorem roundHalfEven_le_floor_succ (z : ℚ) : roundHalfEven z ≤ ⌊z⌋ + 1 := by
  unfold roundHalfEven
  split_ifs <;> omega

/-- An integer rounds to itself. -/
theorem roundHalfEven_intCast (n : ℤ) : roundHalfEven (n : ℚ) = n := by
  unfold roundHalfEven
  simp

/-- Rounding to nearest moves a number by at most one half. -/
theorem roundHalfEven_close (z : ℚ) : |(roundHalfEven z : ℚ) - z| ≤ 1 / 2 := by
  have h1 : (⌊z⌋ : ℚ) ≤ z := Int.floor_le z
  have h2 : z < ⌊z⌋ + 1 := Int.lt_floor_add_one z
  unfold roundHalfEven
  rw [abs_le]
  split_ifs with ha hb hc
  · constructor <;> linarith
  · push_cast; constructor <;> linarith
  · constructor <;> linarith
  · push_cast; constructor <;> linarith

/-- Rounding to nearest is monotone. -/
theorem roundHalfEven_mono {z1 z2 : ℚ} (h : z1 ≤ z2) : roundHalfEven z1 ≤ roundHalfEven z2 := by
  have hf : ⌊z1⌋ ≤ ⌊z2⌋ := Int.floor_mono h
  rcases lt_or_eq_of_le hf with hlt | heq
  · calc roundHalfEven z1 ≤ ⌊z1⌋ + 1 := roundHalfEven_le_floor_succ z1
      _ ≤ ⌊z2⌋ := by omega
      _ ≤ roundHalfEven z2 := floor_le_roundHalfEven z2
  · unfold roundHalfEven
    rw [heq]
    have h' : z1 - ⌊z2⌋ ≤ z2 - ⌊z2⌋ := by linarith
    split_ifs <;> first | omega | (exfalso; linarith)

/-- A number less than one half away from an integer rounds to that integer. -/
theorem roundHalfEven_of_close (z : ℚ) (k : ℤ) (h : |z - k| < 1 / 2) : roundHalfEven z = k := by
  rw [abs_lt] at h
  obtain ⟨h1, h2⟩ := h
  have hc := roundHalfEven_close z
  rw [abs_le] at hc
  obtain ⟨h3, h4⟩ := hc
  have h5 : ((roundHalfEven z : ℤ) : ℚ) - k < 1 := by linarith
  have h6 : -1 < ((roundHalfEven z : ℤ) : ℚ) - k := by linarith
  have h7 : roundHalfEven z - k < 1 := by exact_mod_cast h5
  have h8 : -1 < roundHalfEven z - k := by exact_mod_cast h6
  omega

/-- A tie above an even integer rounds down to it. -/
theorem roundHalfEven_tie (k : ℤ) (hk : k % 2 = 0) : roundHalfEven ((k : ℚ) + 1 / 2) = k := by
  have hfl : ⌊(k : ℚ) + 1 / 2⌋ = k := by
    rw [Int.floor_eq_iff]; constructor <;> norm_num
  unfold roundHalfEven
  rw [hfl]
  norm_num [hk]

/-- A tie above an odd integer rounds up to the next, even, integer. -/
theorem roundHalfEven_tie_odd (k : ℤ) (hk : k % 2 = 1) : roundHalfEven ((k : ℚ) + 1 / 2) = k + 1 := by
  have hfl : ⌊(k : ℚ) + 1 / 2⌋ = k := by
    rw [Int.floor_eq_iff]; constructor <;> norm_num
  unfold roundHalfEven
  rw [hfl]
  norm_num [hk]

/-- The spacing is positive. -/
theorem quantum_pos (q : ℚ) : 0 < quantum q := by
  unfold quantum
  positivity

/-- Zero is a binary64 number. -/
theorem fl_zero : fl 0 = 0 := by simp [fl]

/-- Rounding to binary64 commutes with negation. -/
theorem fl_neg (q : ℚ) : fl (-q) = -fl q := by
  simp [fl, quantum, binade, Left.sign_neg]

/-- Rounding of a positive number, with the sign factor removed. -/
theorem fl_of_pos {q : ℚ} (h : 0 < q) : fl q = roundHalfEven (q / quantum q) * quantum q := by
  simp [fl, sign_pos h, abs_of_pos h]

/-- Rounding to binary64 keeps a number non-negative. -/
theorem fl_nonneg {q : ℚ} (h : 0 ≤ q) : 0 ≤ fl q := by
  rcases eq_or_lt_of_le h with rfl | hpos
  · simp [fl_zero]
  · rw [fl_of_pos hpos]
    have hq := quantum_pos q
    have : (0 : ℤ) ≤ roundHalfEven (q / quantum q) := by
      calc (0 : ℤ) = roundHalfEven ((0 : ℤ) : ℚ) := (roundHalfEven_intCast 0).symm
        _ ≤ roundHalfEven (q / quantum q) := roundHalfEven_mono (by simpa using (div_pos hpos hq).le)
    have h2 : (0 : ℚ) ≤ (roundHalfEven (q / quantum q) : ℚ) := by exact_mod_cast this
    positivity

/-- A positive number lies below the upper end of its binade. -/
theorem lt_two_zpow_binade_succ {q : ℚ} (h : 0 < q) : q < 2 ^ (binade q + 1) := by
  have h1 : q < ((2 : ℕ) : ℚ) ^ (Int.log 2 q + 1) := Int.lt_zpow_succ_log_self (by norm_num) q
  have h2 : Int.log 2 q + 1 ≤ binade q + 1 := by
    unfold binade; rw [abs_of_pos h]; have := le_max_left (Int.log 2 q) (-1022); omega
  calc q < (2 : ℚ) ^ (Int.log 2 q + 1) := by exact_mod_cast h1
    _ ≤ 2 ^ (binade q + 1) := zpow_le_zpow_right₀ (by norm_num) h2

/-- A positive number above the subnormal range lies above the lower end of its binade. -/
theorem two_zpow_binade_le {q : ℚ} (h : 0 < q) (hb : -1022 < binade q) : 2 ^ binade q ≤ q := by
  have hlog : binade q = Int.log 2 q := by
    unfold binade at hb ⊢
    rw [abs_of_pos h] at hb ⊢
    rcases le_total (Int.log 2 q) (-1022) with hle | hle
    · rw [max_eq_right hle] at hb; omega
    · exact max_eq_left hle
  rw [hlog]
  have h1 : ((2 : ℕ) : ℚ) ^ Int.log 2 q ≤ q := Int.zpow_log_le_self (by norm_num) h
  exact_mod_cast h1

/-- The binade is monotone on positive numbers. -/
theorem binade_mono {a b : ℚ} (ha : 0 < a) (h : a ≤ b) : binade a ≤ binade b := by
  unfold binade
  rw [abs_of_pos ha, abs_of_pos (lt_of_lt_of_le ha h)]
  exact max_le_max (Int.log_mono_right ha h) le_rfl

/-- Rounding stays at or below the upper end of the binade. -/
theorem fl_le_two_zpow {q : ℚ} (h : 0 < q) : fl q ≤ 2 ^ (binade q + 1) := by
  rw [fl_of_pos h]
  have hq := quantum_pos q
  have hlt := lt_two_zpow_binade_succ h
  have hsplit : (2 : ℚ) ^ (binade q + 1) = ((2 ^ 53 : ℤ) : ℚ) * quantum q := by
    have hc : ((2 ^ 53 : ℤ) : ℚ) = (2 : ℚ) ^ (53 : ℤ) := by norm_num
    unfold quantum
    rw [hc, ← zpow_add₀ (by norm_num : (2 : ℚ) ≠ 0)]
    congr 1
    ring
  rw [hsplit]
  have hz : q / quantum q ≤ ((2 ^ 53 : ℤ) : ℚ) := by
    rw [div_le_iff₀ hq, ← hsplit]; exact hlt.le
  have := roundHalfEven_mono hz
  rw [roundHalfEven_intCast] at this
  have h2 : (roundHalfEven (q / quantum q) : ℚ) ≤ ((2 ^ 53 : ℤ) : ℚ) := by exact_mod_cast this
  exact mul_le_mul_of_nonneg_right h2 hq.le

/-- Rounding stays at or above the lower end of the binade. -/
theorem two_zpow_le_fl {q : ℚ} (h : 0 < q) (hb : -1022 < binade q) : 2 ^ binade q ≤ fl q := by
  rw [fl_of_pos h]
  have hq := quantum_pos q
  have hle := two_zpow_binade_le h hb
  have hsplit : (2 : ℚ) ^ binade q = ((2 ^ 52 : ℤ) : ℚ) * quantum q := by
    have hc : ((2 ^ 52 : ℤ) : ℚ) = (2 : ℚ) ^ (52 : ℤ) := by norm_num
    unfold quantum
    rw [hc, ← zpow_add₀ (by norm_num : (2 : ℚ) ≠ 0)]
    congr 1
    ring
  rw [hsplit]
  have hz : ((2 ^ 52 : ℤ) : ℚ) ≤ q / quantum q := by
    rw [le_div_iff₀ hq, ← hsplit]; exact hle
  have := roundHalfEven_mono hz
  rw [roundHalfEven_intCast] at this
  have h2 : ((2 ^ 52 : ℤ) : ℚ) ≤ (roundHalfEven (q / quantum q) : ℚ) := by exact_mod_cast this
  exact mul_le_mul_of_nonneg_right h2 hq.le

/-- Rounding to binary64 is monotone on positive numbers. -/
theorem fl_mono_pos {a b : ℚ} (ha : 0 < a) (h : a ≤ b) : fl a ≤ fl b := by
  have hb : 0 < b := lt_of_lt_of_le ha h
  rcases lt_or_eq_of_le (binade_mono ha h) with hlt | heq
  · have hb2 : -1022 < binade b := by
      have : -1022 ≤ binade a := le_max_right _ _
      omega
    calc fl a ≤ 2 ^ (binade a + 1) := fl_le_two_zpow ha
      _ ≤ 2 ^ binade b := zpow_le_zpow_right₀ (by norm_num) (by omega)
      _ ≤ fl b := two_zpow_le_fl hb hb2
  · rw [fl_of_pos ha, fl_of_pos hb]
    have hQ : quantum a = quantum b := by unfold quantum; rw [heq]
    rw [hQ]
    have hq := quantum_pos b
    have hz : a / quantum b ≤ b / quantum b := div_le_div_of_nonneg_right h hq.le
    have := roundHalfEven_mono hz
    have h2 : (roundHalfEven (a / quantum b) : ℚ) ≤ (roundHalfEven (b / quantum b) : ℚ) := by
      exact_mod_cast this
    exact mul_le_mul_of_nonneg_right h2 hq.le

/-- Rounding to binary64 is monotone. -/
theorem fl_mono {a b : ℚ} (h : a ≤ b) : fl a ≤ fl b := by
  rcases lt_trichotomy a 0 with ha | rfl | ha
  · rcases lt_or_le b 0 with hb | hb
    · have := fl_mono_pos (neg_pos.mpr hb) (neg_le_neg h)
      rw [fl_neg, fl_neg] at this
      linarith
    · have h1 := fl_nonneg hb
      have h2 := fl_nonneg (neg_pos.mpr ha).le
      rw [fl_neg] at h2
      linarith
  · rw [fl_zero]; exact fl_nonneg h
  · exact fl_mono_pos ha h

/-- The binade of a positive number between 2^e and 2^(e+1). -/
theorem binade_eq {q : ℚ} {e : ℤ} (hq : 0 < q) (he : -1022 ≤ e) (hlo : (2 : ℚ) ^ e ≤ q)
    (hhi : q < 2 ^ (e + 1)) : binade q = e := by
  have h1 : e ≤ Int.log 2 q := by
    rw [← Int.zpow_le_iff_le_log (by norm_num) hq]
    exact_mod_cast hlo
  have h2 : Int.log 2 q < e + 1 := by
    rw [← Int.lt_zpow_iff_log_lt (by norm_num) hq]
    exact_mod_cast hhi
  unfold binade
  rw [abs_of_pos hq, max_eq_left (by omega)]
  omega

/-- Evaluation of the rounding: a positive number in the binade e whose scaled value is
less than one half away from the integer k rounds to k spacings. -/
theorem fl_eval {q : ℚ} (e k : ℤ) (hq : 0 < q) (he : -1022 ≤ e) (hlo : (2 : ℚ) ^ e ≤ q)
    (hhi : q < 2 ^ (e + 1)) (hk : |q / 2 ^ (e - 52) - k| < 1 / 2) :
    fl q = k * 2 ^ (e - 52) := by
  rw [fl_of_pos hq]
  unfold quantum
  rw [binade_eq hq he hlo hhi, roundHalfEven_of_close _ k hk]

/-- Evaluation of the rounding at a negative number. -/
theorem fl_eval_neg {q : ℚ} (e k : ℤ) (hq : q < 0) (he : -1022 ≤ e) (hlo : (2 : ℚ) ^ e ≤ -q)
    (hhi : -q < 2 ^ (e + 1)) (hk : |-q / 2 ^ (e - 52) - k| < 1 / 2) :
    fl q = -(k * 2 ^ (e - 52)) := by
  have h := fl_eval e k (neg_pos.mpr hq) he hlo hhi hk
  rw [fl_neg] at h
  linarith

/-- Evaluation of the rounding at a tie above an even integer. -/
theorem fl_eval_tie {q : ℚ} (e k : ℤ) (hq : 0 < q) (he : -1022 ≤ e) (hlo : (2 : ℚ) ^ e ≤ q)
    (hhi : q < 2 ^ (e + 1)) (hk : q / 2 ^ (e - 52) = k + 1 / 2) (heven : k % 2 = 0) :
    fl q = k * 2 ^ (e - 52) := by
  rw [fl_of_pos hq]
  unfold quantum
  rw [binade_eq hq he hlo hhi, hk, roundHalfEven_tie k heven]

/-- Evaluation of the rounding at a tie above an odd integer. -/
theorem fl_eval_tie_odd {q : ℚ} (e k : ℤ) (hq : 0 < q) (he : -1022 ≤ e) (hlo : (2 : ℚ) ^ e ≤ q)
    (hhi : q < 2 ^ (e + 1)) (hk : q / 2 ^ (e - 52) = k + 1 / 2) (hodd : k % 2 = 1) :
    fl q = (k + 1 : ℤ) * 2 ^ (e - 52) := by
  rw [fl_of_pos hq]
  unfold quantum
  rw [binade_eq hq he hlo hhi, hk, roundHalfEven_tie_odd k hodd]

/-- The rounding error is at most 2^-53 times the magnitude, plus 2^-1075 for the
subnormal range. -/
theorem fl_error (q : ℚ) : |fl q - q| ≤ 2 ^ (-53 : ℤ) * |q| + 2 ^ (-1075 : ℤ) := by
  have key : ∀ a : ℚ, 0 < a → |fl a - a| ≤ 2 ^ (-53 : ℤ) * |a| + 2 ^ (-1075 : ℤ) := by
    intro a ha
    have hQ := quantum_pos a
    have hc := roundHalfEven_close (a / quantum a)
    have hdiff : fl a - a = ((roundHalfEven (a / quantum a) : ℚ) - a / quantum a) * quantum a := by
      rw [fl_of_pos ha]; field_simp
    have h1 : |fl a - a| ≤ quantum a / 2 := by
      rw [hdiff, abs_mul, abs_of_pos hQ]
      nlinarith
    have hhalf : quantum a / 2 = 2 ^ (binade a - 53) := by
      unfold quantum
      rw [show binade a - 52 = (binade a - 53) + 1 by ring, zpow_add₀ (by norm_num : (2 : ℚ) ≠ 0)]
      norm_num
    rw [hhalf] at h1
    rw [abs_of_pos ha]
    have hpos1 : (0 : ℚ) < 2 ^ (-1075 : ℤ) := by positivity
    have hpos2 : (0 : ℚ) ≤ 2 ^ (-53 : ℤ) * a := by positivity
    rcases eq_or_lt_of_le (le_max_right (Int.log 2 |a|) (-1022)) with heq | hlt
    · have hb : binade a = -1022 := heq.symm
      rw [hb] at h1
      norm_num at h1 ⊢
      linarith
    · have hb : -1022 < binade a := hlt
      have hle := two_zpow_binade_le ha hb
      have : (2 : ℚ) ^ (binade a - 53) = 2 ^ (-53 : ℤ) * 2 ^ binade a := by
        rw [← zpow_add₀ (by norm_num : (2 : ℚ) ≠ 0)]; congr 1; ring
      rw [this] at h1
      have h53 : (0 : ℚ) < 2 ^ (-53 : ℤ) := by positivity
      nlinarith
  rcases lt_trichotomy q 0 with hq | rfl | hq
  · have := key (-q) (neg_pos.mpr hq)
    rw [fl_neg, abs_neg] at this
    have e : -fl q - -q = -(fl q - q) := by ring
    rw [e, abs_neg] at this
    exact this
  · rw [fl_zero]; norm_num
  · exact key q hq

/-- One is a binary64 number. -/
theorem fl_one : fl 1 = 1 := by
  rw [fl_eval 0 (2 ^ 52) (by norm_num) (by norm_num) (by norm_num) (by norm_num)
    (by norm_num [abs_lt])]
  norm_num

/-- The rounding error for a number of magnitude at most B. -/
theorem fl_error_le {q B : ℚ} (h : |q| ≤ B) :
    |fl q - q| ≤ 2 ^ (-53 : ℤ) * B + 2 ^ (-1075 : ℤ) := by
  have := fl_error q
  have h53 : (0 : ℚ) < 2 ^ (-53 : ℤ) := by positivity
  nlinarith

/-- Rounding keeps a number between two binary64 numbers. -/
theorem fl_mem_Icc {q lo hi : ℚ} (hlo : lo ≤ q) (hhi : q ≤ hi) (flo : fl lo = lo)
    (fhi : fl hi = hi) : lo ≤ fl q ∧ fl q ≤ hi := by
  constructor
  · rw [← flo]; exact fl_mono hlo
  · rw [← fhi]; exact fl_mono hhi

/-- The number 270 is a binary64 number. -/
theorem fl_270 : fl 270 = 270 := by
  rw [fl_eval 8 4749890231992320 (by norm_num) (by norm_num) (by norm_num) (by norm_num) (by norm_num [abs_lt])]
  norm_num

/-- The number 135 is a binary64 number. -/
theorem fl_135 : fl 135 = 135 := by
  rw [fl_eval 7 4749890231992320 (by norm_num) (by norm_num) (by norm_num) (by norm_num) (by norm_num [abs_lt])]
  norm_num

/-- The number -135 is a binary64 number. -/
theorem fl_neg_135 : fl (-135) = -135 := by
  rw [fl_neg, fl_135]

/-- The binary64 value of the literal 0.2. -/
theorem fl_two_tenths : fl (2 / 10) = 3602879701896397 / 18014398509481984 := by
  rw [fl_eval (-3) 7205759403792794 (by norm_num) (by norm_num) (by norm_num) (by norm_num)
    (by norm_num [abs_lt])]
  norm_num

/-- The binary64 value of the literal 0.8. -/
theorem fl_eight_tenths : fl (8 / 10) = 3602879701896397 / 4503599627370496 := by
  rw [fl_eval (-1) 7205759403792794 (by norm_num) (by norm_num) (by norm_num) (by norm_num)
    (by norm_num [abs_lt])]
  norm_num

/-- One half is a binary64 number. -/
theorem fl_half : fl (1 / 2) = 1 / 2 := by
  rw [fl_eval (-1) 4503599627370496 (by norm_num) (by norm_num) (by norm_num) (by norm_num)
    (by norm_num [abs_lt])]
  norm_num

/-! ## Properties of the parameter mapper -/

/-- On the half-open range of x the chord index is one of 0 to 4. -/
theorem chordIndex_range_of_lt_one (x y : ℚ) (h0 : 0 ≤ x) (h1 : x < 1) :
    0 ≤ (mapHandToParams x y).chordIndex ∧ (mapHandToParams x y).chordIndex ≤ 4 := by
  constructor
  · exact Int.floor_nonneg.mpr (by positivity)
  · have h : (mapHandToParams x y).chordIndex < 5 := by
      apply Int.floor_lt.mpr
      push_cast
      linarith
    omega

/-- C1 (evaluation at the failing input): at the right edge x = 1 the function
mapHandToParams returns chordIndex 5, which is outside 0..4, for every y; the
lookup made by loop then wraps around to the first root. -/
theorem mapHandToParams_chordIndex_at_one (y : ℚ) :
    (mapHandToParams 1 y).chordIndex = 5 ∧
      ¬ ((mapHandToParams 1 y).chordIndex ≤ 4) ∧
      rootOf (mapHandToParams 1 y) = some "C4" := by
  have h : (mapHandToParams 1 y).chordIndex = 5 := by
    simp [mapHandToParams]
  refine ⟨h, by omega, ?_⟩
  simp [rootOf, rootIndex, h, jsRem, jsIndex, roots]

/-- C2: for x in the half-open range from 0 to 1 the index chordIndex % roots.length
used by loop equals floor(x*5) mod 5, lies in 0..4, and the lookup in roots is
defined; the index is 0 at x = 0 and 4 at x = 0.99. -/
theorem rootIndex_spec (x y : ℚ) (h0 : 0 ≤ x) (h1 : x < 1) :
    rootIndex (mapHandToParams x y) = ⌊x * 5⌋ % 5 ∧
      0 ≤ rootIndex (mapHandToParams x y) ∧ rootIndex (mapHandToParams x y) ≤ 4 ∧
      (∃ r, r ∈ roots ∧ rootOf (mapHandToParams x y) = some r) ∧
      rootIndex (mapHandToParams 0 y) = 0 ∧
      rootIndex (mapHandToParams (99 / 100) y) = 4 := by
  obtain ⟨hlo, hhi⟩ := chordIndex_range_of_lt_one x y h0 h1
  have hk : (mapHandToParams x y).chordIndex = ⌊x * 5⌋ := rfl
  have hrem : rootIndex (mapHandToParams x y) = (mapHandToParams x y).chordIndex := by
    simp only [rootIndex, jsRem, roots, List.length_cons, List.length_nil]
    exact Int.tmod_eq_of_lt hlo (by norm_num; omega)
  have h99 : (mapHandToParams (99 / 100) y).chordIndex = 4 := by
    simp only [mapHandToParams]
    rw [Int.floor_eq_iff]
    norm_num
  refine ⟨?_, ?_, ?_, ?_, ?_, ?_⟩
  · rw [hrem, hk]
    rw [hk] at hlo hhi
    omega
  · rw [hrem]; exact hlo
  · rw [hrem]; exact hhi
  · simp only [rootOf, hrem, jsIndex, hlo, if_true]
    generalize (mapHandToParams x y).chordIndex = k at hlo hhi
    interval_cases k <;> simp [roots]
  · simp [rootIndex, mapHandToParams, jsRem]
  · simp only [rootIndex, h99, jsRem, roots]
    decide

/-- The intensity does not increase when y grows. -/
theorem intensity_anti (x : ℚ) {y1 y2 : ℚ} (h : y1 ≤ y2) :
    (mapHandToParams x y2).intensity ≤ (mapHandToParams x y1).intensity := by
  simp only [mapHandToParams]
  apply fl_mono
  apply add_le_add_left
  apply fl_mono
  apply mul_le_mul_of_nonneg_left _ (fl_nonneg (by norm_num))
  apply fl_mono
  linarith

/-- The intensity at the top of the frame is 1. -/
theorem intensity_at_zero (x : ℚ) : (mapHandToParams x 0).intensity = 1 := by
  have h1 : fl (1 - 0 : ℚ) = 1 := by rw [sub_zero]; exact fl_one
  have h2 : fl ((3602879701896397 / 4503599627370496 : ℚ) * 1)
      = 3602879701896397 / 4503599627370496 := by
    rw [fl_eval (-1) 7205759403792794 (by norm_num) (by norm_num) (by norm_num) (by norm_num)
      (by norm_num [abs_lt])]
    norm_num
  have h3 : fl ((3602879701896397 / 18014398509481984 : ℚ) + 3602879701896397 / 4503599627370496)
      = 1 := by
    rw [fl_eval 0 4503599627370496 (by norm_num) (by norm_num) (by norm_num) (by norm_num)
      (by norm_num [abs_lt])]
    norm_num
  simp only [mapHandToParams]
  rw [fl_two_tenths, fl_eight_tenths, h1, h2, h3]

/-- The intensity at the bottom of the frame is the binary64 number 0.2. -/
theorem intensity_at_one (x : ℚ) : (mapHandToParams x 1).intensity = fl (2 / 10) := by
  have h3 : fl (3602879701896397 / 18014398509481984 : ℚ)
      = 3602879701896397 / 18014398509481984 := by
    rw [fl_eval (-3) 7205759403792794 (by norm_num) (by norm_num) (by norm_num) (by norm_num)
      (by norm_num [abs_lt])]
    norm_num
  simp only [mapHandToParams]
  rw [fl_two_tenths, fl_eight_tenths]
  simp only [sub_self, fl_zero, mul_zero, add_zero]
  exact h3

/-- The intensity at y = 0.5 is the binary64 number 0.6000000000000001. -/
theorem intensity_at_half (x : ℚ) :
    (mapHandToParams x (1 / 2)).intensity = 1351079888211149 / 2251799813685248 := by
  have h1 : fl (1 - 1 / 2 : ℚ) = 1 / 2 := by
    rw [show (1 - 1 / 2 : ℚ) = 1 / 2 by norm_num]; exact fl_half
  have h2 : fl ((3602879701896397 / 4503599627370496 : ℚ) * (1 / 2))
      = 3602879701896397 / 9007199254740992 := by
    rw [fl_eval (-2) 7205759403792794 (by norm_num) (by norm_num) (by norm_num) (by norm_num)
      (by norm_num [abs_lt])]
    norm_num
  have h3 : fl ((3602879701896397 / 18014398509481984 : ℚ) + 3602879701896397 / 9007199254740992)
      = 1351079888211149 / 2251799813685248 := by
    rw [fl_eval_tie_odd (-1) 5404319552844595 (by norm_num) (by norm_num) (by norm_num)
      (by norm_num) (by norm_num) (by norm_num)]
    norm_num
  simp only [mapHandToParams]
  rw [fl_two_tenths, fl_eight_tenths, h1, h2, h3]

/-- The difference 1 - y for the binary64 number y next below 0.5 rounds to 0.5. -/
theorem fl_one_sub_below_half : fl (1 - (1 / 2 - 1 / 2 ^ 54)) = 1 / 2 := by
  rw [fl_eval_tie (-1) 4503599627370496 (by norm_num) (by norm_num) (by norm_num) (by norm_num)
    (by norm_num) (by norm_num)]
  norm_num

/-- The intensity is within 2^-51 of the exact value of 0.2 + 0.8 * (1 - y). -/
theorem intensity_error (x y : ℚ) (h0 : 0 ≤ y) (h1 : y ≤ 1) :
    |(mapHandToParams x y).intensity - (1 / 5 + 4 / 5 * (1 - y))| ≤ 2 ^ (-51 : ℤ) := by
  have hw0 : 0 ≤ fl (1 - y) := fl_nonneg (by linarith)
  have hw1 : fl (1 - y) ≤ 1 := by
    have := fl_mono (show 1 - y ≤ 1 by linarith)
    rwa [fl_one] at this
  have hwe := fl_error (1 - y)
  rw [abs_of_nonneg (show 0 ≤ 1 - y by linarith)] at hwe
  have hpe := fl_error ((3602879701896397 / 4503599627370496 : ℚ) * fl (1 - y))
  have hp0 : 0 ≤ (3602879701896397 / 4503599627370496 : ℚ) * fl (1 - y) := by positivity
  rw [abs_of_nonneg hp0] at hpe
  have hfp0 : 0 ≤ fl ((3602879701896397 / 4503599627370496 : ℚ) * fl (1 - y)) := fl_nonneg hp0
  have hse := fl_error ((3602879701896397 / 18014398509481984 : ℚ) +
    fl ((3602879701896397 / 4503599627370496 : ℚ) * fl (1 - y)))
  rw [abs_of_nonneg (show (0 : ℚ) ≤ 3602879701896397 / 18014398509481984 +
    fl ((3602879701896397 / 4503599627370496 : ℚ) * fl (1 - y)) by positivity)] at hse
  simp only [mapHandToParams]
  rw [fl_two_tenths, fl_eight_tenths]
  rw [abs_le] at hwe hpe hse ⊢
  norm_num at hwe hpe hse ⊢
  constructor <;> linarith [hwe.1, hwe.2, hpe.1, hpe.2, hse.1, hse.2]

/-- C3 (counterexample): the binary64 number next below 0.5 and 0.5 itself are two
values of y, the first smaller than the second, for which mapHandToParams returns
the same intensity 0.6000000000000001; so the intensity is not strictly
decreasing in y. -/
theorem intensity_not_strictly_decreasing :
    fl (1 / 2 - 1 / 2 ^ 54) = 1 / 2 - 1 / 2 ^ 54 ∧
      (0 : ℚ) ≤ 1 / 2 - 1 / 2 ^ 54 ∧ (1 / 2 - 1 / 2 ^ 54 : ℚ) < 1 / 2 ∧ (1 / 2 : ℚ) ≤ 1 ∧
      (mapHandToParams 0 (1 / 2 - 1 / 2 ^ 54)).intensity = 1351079888211149 / 2251799813685248 ∧
      (mapHandToParams 0 (1 / 2)).intensity = 1351079888211149 / 2251799813685248 ∧
      ¬ ((mapHandToParams 0 (1 / 2 - 1 / 2 ^ 54)).intensity
          > (mapHandToParams 0 (1 / 2)).intensity) := by
  have hrep : fl (1 / 2 - 1 / 2 ^ 54 : ℚ) = 1 / 2 - 1 / 2 ^ 54 := by
    rw [fl_eval (-2) 9007199254740991 (by norm_num) (by norm_num) (by norm_num) (by norm_num)
      (by norm_num [abs_lt])]
    norm_num
  have hsame : (mapHandToParams 0 (1 / 2 - 1 / 2 ^ 54)).intensity
      = (mapHandToParams 0 (1 / 2)).intensity := by
    have h1 : fl (1 - 1 / 2 : ℚ) = 1 / 2 := by
      rw [show (1 - 1 / 2 : ℚ) = 1 / 2 by norm_num]; exact fl_half
    simp only [mapHandToParams]
    rw [fl_one_sub_below_half, h1]
  refine ⟨hrep, by norm_num, by norm_num, by norm_num, ?_, intensity_at_half 0, ?_⟩
  · rw [hsame]; exact intensity_at_half 0
  · rw [hsame]; exact lt_irrefl _

/-- C3 (amended): for every y between 0 and 1 the intensity is the binary64 value
of 0.2 + 0.8 * (1 - y), within 2^-51 of the exact value, whatever x is; it is 1.0
at y = 0 and the binary64 number 0.2 at y = 1; it lies between these two; and it
is non-increasing in y (y1 < y2 implies intensity(y1) ≥ intensity(y2)). -/
theorem intensity_spec (x y : ℚ) (h0 : 0 ≤ y) (h1 : y ≤ 1) :
    (mapHandToParams x y).intensity = fl (fl (1 / 5) + fl (fl (4 / 5) * fl (1 - y))) ∧
      |(mapHandToParams x y).intensity - (1 / 5 + 4 / 5 * (1 - y))| ≤ 2 ^ (-51 : ℤ) ∧
      (∀ x2 : ℚ, (mapHandToParams x2 y).intensity = (mapHandToParams x y).intensity) ∧
      (mapHandToParams x 0).intensity = 1 ∧
      (mapHandToParams x 1).intensity = fl (1 / 5) ∧
      fl (1 / 5) ≤ (mapHandToParams x y).intensity ∧
      (mapHandToParams x y).intensity ≤ 1 ∧
      (∀ y1 y2 : ℚ, y1 < y2 →
        (mapHandToParams x y1).intensity ≥ (mapHandToParams x y2).intensity) := by
  have e2 : (2 / 10 : ℚ) = 1 / 5 := by norm_num
  have e8 : (8 / 10 : ℚ) = 4 / 5 := by norm_num
  refine ⟨?_, intensity_error x y h0 h1, ?_, intensity_at_zero x, ?_, ?_, ?_, ?_⟩
  · simp only [mapHandToParams, e2, e8]
  · intro x2; rfl
  · rw [intensity_at_one, e2]
  · rw [← e2, ← intensity_at_one x]
    exact intensity_anti x h1
  · rw [← intensity_at_zero x]
    exact intensity_anti x h0
  · intro y1 y2 h
    exact intensity_anti x h.le

/-- C2 at the sample x = 1/2, y = 1/2. -/
theorem rootIndex_spec_witness :
    (0 : ℚ) ≤ 1 / 2 ∧ (1 / 2 : ℚ) < 1 ∧
      (rootIndex (mapHandToParams (1 / 2) (1 / 2)) = ⌊(1 / 2 : ℚ) * 5⌋ % 5 ∧
        0 ≤ rootIndex (mapHandToParams (1 / 2) (1 / 2)) ∧
        rootIndex (mapHandToParams (1 / 2) (1 / 2)) ≤ 4 ∧
        (∃ r, r ∈ roots ∧ rootOf (mapHandToParams (1 / 2) (1 / 2)) = some r) ∧
        rootIndex (mapHandToParams 0 (1 / 2)) = 0 ∧
        rootIndex (mapHandToParams (99 / 100) (1 / 2)) = 4) :=
  ⟨by norm_num, by norm_num, rootIndex_spec (1 / 2) (1 / 2) (by norm_num) (by norm_num)⟩

/-- C3 (amended) at the sample y = 1/2: the intensity there is at most 1 and at
least the intensity at y = 1. -/
theorem intensity_spec_witness :
    (0 : ℚ) ≤ 1 / 2 ∧ (1 / 2 : ℚ) ≤ 1 ∧ (1 / 2 : ℚ) < 1 ∧
      (mapHandToParams 0 (1 / 2)).intensity ≤ 1 ∧
      (mapHandToParams 0 (1 / 2)).intensity ≥ (mapHandToParams 0 1).intensity :=
  ⟨by norm_num, by norm_num, by norm_num,
    (intensity_spec 0 (1 / 2) (by norm_num) (by norm_num)).2.2.2.2.2.2.1,
    (intensity_spec 0 (1 / 2) (by norm_num) (by norm_num)).2.2.2.2.2.2.2 (1 / 2) 1
      (by norm_num)⟩

/-! ## Properties of the gesture loop -/

/-- Hands after the first one leave the loop state unchanged. -/
theorem forEachFrom_succ (now : ℚ) (lms : List Landmark) (i : ℕ) (s : LoopState) :
    forEachFrom (handCallback now) (i + 1) s lms = s := by
  induction lms generalizing i s with
  | nil => rfl
  | cons w rest ih =>
    simp only [forEachFrom]
    rw [ih]
    simp [handCallback]

/-- An iteration that sees at least one hand while running acts through the
callback at index 0 on the first hand. -/
theorem loop_cons (s : LoopState) (now : ℚ) (w : Landmark) (rest : List Landmark)
    (hr : s.running = true) :
    loop s { now := now, landmarks := some (w :: rest) } = handCallback now s 0 w := by
  simp only [loop, hr, if_true, forEachFrom]
  exact forEachFrom_succ now rest 0 _

/-- One iteration either leaves the trigger log and lastTrigTime alone, or adds one
call made at the time now, which is then more than 200 ms after the former
lastTrigTime. -/
theorem loop_cases (s : LoopState) (f : Frame) :
    ((loop s f).chordCalls = s.chordCalls ∧ (loop s f).lastTrigTime = s.lastTrigTime) ∨
      (f.now - s.lastTrigTime > 200 ∧ (loop s f).lastTrigTime = f.now ∧
        ∃ c : ChordCall, c.time = f.now ∧ (loop s f).chordCalls = c :: s.chordCalls) := by
  obtain ⟨now, lms⟩ := f
  by_cases hr : s.running = true
  · cases lms with
    | none => left; simp [loop]
    | some l =>
      cases l with
      | nil => left; simp [loop, forEachFrom]
      | cons w rest =>
        rw [loop_cons s now w rest hr]
        by_cases hgap : now - s.lastTrigTime > 200
        · right
          refine ⟨hgap, ?_, ?_⟩
          · simp [handCallback, hgap]
          · refine ⟨⟨now, rootOf (mapHandToParams w.x w.y), (mapHandToParams w.x w.y).intensity⟩,
              rfl, ?_⟩
            simp [handCallback, hgap]
        · left
          simp [handCallback, hgap]
  · left
    simp [loop, hr]

/-- The running flag is not changed by an iteration. -/
theorem loop_running (s : LoopState) (f : Frame) : (loop s f).running = s.running := by
  obtain ⟨now, lms⟩ := f
  by_cases hr : s.running = true
  · cases lms with
    | none => simp [loop]
    | some l =>
      cases l with
      | nil => simp [loop, forEachFrom]
      | cons w rest =>
        rw [loop_cons s now w rest hr]
        simp only [handCallback, if_true]
        split <;> rfl
  · simp [loop, hr]

/-- The invariant holds when the script has been loaded. -/
theorem trigInv_init : TrigInv loopInit := by
  simp [TrigInv, loopInit]

/-- The invariant is kept by one iteration of loop. -/
theorem trigInv_loop (s : LoopState) (f : Frame) (h : TrigInv s) : TrigInv (loop s f) := by
  obtain ⟨hp, hle, hlast⟩ := h
  rcases loop_cases s f with ⟨hc, hl⟩ | ⟨hgap, hl, c, hct, hc⟩
  · simp only [TrigInv, hc, hl]
    exact ⟨hp, hle, hlast⟩
  · simp only [TrigInv, hc, hl]
    refine ⟨?_, ?_, hct.symm⟩
    · rw [List.pairwise_cons]
      refine ⟨?_, hp⟩
      intro e he
      have := hle e he
      rw [hct]
      linarith
    · intro e he
      rcases List.mem_cons.mp he with rfl | he
      · exact le_of_eq hct
      · have := hle e he
        linarith

/-- The invariant is kept by every event. -/
theorem trigInv_event (s : LoopState) (e : LoopEvent) (h : TrigInv s) :
    TrigInv (loopEvent s e) := by
  cases e with
  | iteration f => exact trigInv_loop s f h
  | powerOn =>
    simp only [loopEvent]
    split
    · exact h
    · exact h
  | powerOff => exact h

/-- The invariant holds after any sequence of events from a state where it holds. -/
theorem trigInv_foldl (evs : List LoopEvent) (s : LoopState) (h : TrigInv s) :
    TrigInv (evs.foldl loopEvent s) := by
  induction evs generalizing s with
  | nil => exact h
  | cons e rest ih => exact ih _ (trigInv_event s e h)

/-- C4: after any sequence of loop iterations and power clicks (at any frame
rate, with or without hands, and in particular when the timestamps are
non-decreasing), any two chord calls are at least 200 ms apart and lastTrigTime is
the time of the most recent call (0 when there was none); two successive
iterations 50 ms apart add at most one chord call, and exactly one when the first
of them triggers. -/
theorem loop_rate_limited (evs : List LoopEvent) :
    (evs.foldl loopEvent loopInit).chordCalls.Pairwise
        (fun later earlier => later.time - earlier.time ≥ 200) ∧
      (match (evs.foldl loopEvent loopInit).chordCalls with
        | [] => (evs.foldl loopEvent loopInit).lastTrigTime = 0
        | c :: _ => (evs.foldl loopEvent loopInit).lastTrigTime = c.time) ∧
      (∀ (s : LoopState) (f1 f2 : Frame), f2.now = f1.now + 50 →
        (loop (loop s f1) f2).chordCalls.length ≤ s.chordCalls.length + 1) ∧
      (∀ (s : LoopState) (t : ℚ) (w1 w2 : Landmark) (r1 r2 : List Landmark),
        s.running = true → t - s.lastTrigTime > 200 →
        (loop (loop s { now := t, landmarks := some (w1 :: r1) })
          { now := t + 50, landmarks := some (w2 :: r2) }).chordCalls.length
          = s.chordCalls.length + 1) := by
  obtain ⟨hp, _, hlast⟩ := trigInv_foldl evs loopInit trigInv_init
  refine ⟨?_, hlast, ?_, ?_⟩
  · exact hp.imp (fun h => le_of_lt h)
  · intro s f1 f2 h50
    rcases loop_cases s f1 with ⟨hc1, hl1⟩ | ⟨_, hl1, c1, _, hc1⟩
    · rcases loop_cases (loop s f1) f2 with ⟨hc2, _⟩ | ⟨_, _, c2, _, hc2⟩
      · rw [hc2, hc1]; omega
      · rw [hc2, hc1]; simp
    · rcases loop_cases (loop s f1) f2 with ⟨hc2, _⟩ | ⟨hgap, _, c2, _, hc2⟩
      · rw [hc2, hc1]; simp
      · rw [hl1, h50] at hgap
        linarith
  · intro s t w1 w2 r1 r2 hr hgap
    have hr1 : (loop s { now := t, landmarks := some (w1 :: r1) }).running = true := by
      rw [loop_running]; exact hr
    rw [loop_cons _ _ _ _ hr1, loop_cons _ _ _ _ hr]
    have h50 : ¬ ((200 : ℚ) < 50) := by norm_num
    simp [handCallback, hgap, h50]

/-- C4 at a sample: after power-on, two iterations that see a hand at times 1000
and 1050 make exactly one chord call. -/
theorem loop_rate_limited_witness :
    (loopEvent loopInit LoopEvent.powerOn).running = true ∧
      (1000 : ℚ) - (loopEvent loopInit LoopEvent.powerOn).lastTrigTime > 200 ∧
      (loop (loop (loopEvent loopInit LoopEvent.powerOn)
          { now := 1000, landmarks := some [{ x := 1 / 2, y := 1 / 2 }] })
        { now := 1000 + 50, landmarks := some [{ x := 1 / 2, y := 1 / 2 }] }).chordCalls.length
        = (loopEvent loopInit LoopEvent.powerOn).chordCalls.length + 1 :=
  ⟨rfl, by norm_num [loopEvent, loopInit],
    (loop_rate_limited []).2.2.2 (loopEvent loopInit LoopEvent.powerOn) 1000
      { x := 1 / 2, y := 1 / 2 } { x := 1 / 2, y := 1 / 2 } [] [] rfl
      (by norm_num [loopEvent, loopInit])⟩

/-- C5 (counterexample): after a chord call at time 1000, an iteration that sees
the primary hand at time 1200, exactly 200 ms later, makes no chord call and
leaves lastTrigTime at 1000. -/
theorem loop_no_trigger_at_exactly_200 :
    (loop (loop (loopEvent loopInit LoopEvent.powerOn)
          { now := 1000, landmarks := some [{ x := 1 / 2, y := 1 / 2 }] })
        { now := 1200, landmarks := some [{ x := 1 / 2, y := 1 / 2 }] }).chordCalls.length = 1 ∧
      (loop (loop (loopEvent loopInit LoopEvent.powerOn)
          { now := 1000, landmarks := some [{ x := 1 / 2, y := 1 / 2 }] })
        { now := 1200, landmarks := some [{ x := 1 / 2, y := 1 / 2 }] }).lastTrigTime = 1000 ∧
      (1200 : ℚ) -
        (loop (loopEvent loopInit LoopEvent.powerOn)
          { now := 1000, landmarks := some [{ x := 1 / 2, y := 1 / 2 }] }).lastTrigTime ≥ 200 := by
  have hr : (loopEvent loopInit LoopEvent.powerOn).running = true := rfl
  have h0 : (loopEvent loopInit LoopEvent.powerOn).lastTrigTime = 0 := rfl
  have hc0 : (loopEvent loopInit LoopEvent.powerOn).chordCalls = [] := rfl
  have hr1 : (loop (loopEvent loopInit LoopEvent.powerOn)
      { now := 1000, landmarks := some [{ x := 1 / 2, y := 1 / 2 }] }).running = true := by
    rw [loop_running]; exact hr
  rw [loop_cons _ _ _ _ hr1, loop_cons _ _ _ _ hr]
  norm_num [handCallback, h0, hc0]

/-- C5 (amended): in an iteration that runs and sees the primary hand at time now,
a chord call is made with the mapped root and intensity and lastTrigTime becomes
now when now - lastTrigTime > 200; otherwise no call is made and lastTrigTime is
unchanged.  When the first of two such iterations 250 ms apart triggers, both
trigger. -/
theorem loop_trigger_rule (s : LoopState) (now : ℚ) (w : Landmark) (rest : List Landmark)
    (hr : s.running = true) :
    (now - s.lastTrigTime > 200 →
        (loop s { now := now, landmarks := some (w :: rest) }).chordCalls =
            { time := now, root := rootOf (mapHandToParams w.x w.y)
              velocity := (mapHandToParams w.x w.y).intensity } :: s.chordCalls ∧
          (loop s { now := now, landmarks := some (w :: rest) }).lastTrigTime = now) ∧
      (¬ (now - s.lastTrigTime > 200) →
        (loop s { now := now, landmarks := some (w :: rest) }).chordCalls = s.chordCalls ∧
          (loop s { now := now, landmarks := some (w :: rest) }).lastTrigTime
            = s.lastTrigTime) ∧
      (now - s.lastTrigTime > 200 → ∀ (w2 : Landmark) (rest2 : List Landmark),
        (loop (loop s { now := now, landmarks := some (w :: rest) })
          { now := now + 250, landmarks := some (w2 :: rest2) }).chordCalls.length
          = s.chordCalls.length + 2) := by
  refine ⟨?_, ?_, ?_⟩
  · intro hgap
    rw [loop_cons _ _ _ _ hr]
    simp [handCallback, hgap]
  · intro hgap
    rw [loop_cons _ _ _ _ hr]
    simp [handCallback, hgap]
  · intro hgap w2 rest2
    have hr1 : (loop s { now := now, landmarks := some (w :: rest) }).running = true := by
      rw [loop_running]; exact hr
    rw [loop_cons _ _ _ _ hr1, loop_cons _ _ _ _ hr]
    have h250 : (200 : ℚ) < 250 := by norm_num
    simp [handCallback, hgap, h250]

/-- C5 (amended) at a sample: from the state after power-on, a hand seen at time
1000 sets lastTrigTime to 1000. -/
theorem loop_trigger_rule_witness :
    (loopEvent loopInit LoopEvent.powerOn).running = true ∧
      (loop (loopEvent loopInit LoopEvent.powerOn)
        { now := 1000, landmarks := some [{ x := 1 / 2, y := 1 / 2 }] }).lastTrigTime = 1000 :=
  ⟨rfl, ((loop_trigger_rule (loopEvent loopInit LoopEvent.powerOn) 1000
      { x := 1 / 2, y := 1 / 2 } [] rfl).1
      (by norm_num [loopEvent, loopInit])).2⟩

/-! ## Properties of the waveform toggle -/

/-- The top-level call of updateWave leaves the state with index 0. -/
theorem waveInit_eq (text : String) : waveInit text = some (waveStateAt 0) := by
  rfl

/-- A click moves the state with index i to the state with the next index. -/
theorem waveToggleClick_at (i : ℕ) (hi : i < 4) :
    waveToggleClick (waveStateAt i) = some (waveStateAt ((i + 1) % 4)) := by
  interval_cases i <;> rfl

/-- After n clicks the state with index i has become the state with index
(i + n) mod 4. -/
theorem waveClicks_at (n i : ℕ) (hi : i < 4) :
    waveClicks n (waveStateAt i) = some (waveStateAt ((i + n) % 4)) := by
  induction n generalizing i with
  | zero => simp [waveClicks, Nat.mod_eq_of_lt hi]
  | succ n ih =>
    simp only [waveClicks, waveToggleClick_at i hi, Option.some_bind]
    rw [ih _ (Nat.mod_lt _ (by norm_num))]
    congr 2
    omega

/-- C6: the state s reached after loading the script and any number n of clicks
exists (no click fails); in it currentWave is the entry of waves at waveIndex; one
more click moves currentWave to the next waveform in the order sine, square,
triangle, sawtooth, sine; four clicks lead back to s itself, while one, two or
three clicks change both currentWave and waveIndex; and the waveform after
loading is sine. -/
theorem waveToggle_cycle (text : String) (n : ℕ) :
    ∃ s : WaveState, waveAfterClicks text n = some s ∧
      waves[s.waveIndex]? = some s.currentWave ∧
      s.synth.oscillatorType = s.currentWave ∧
      (∃ s1 : WaveState, waveToggleClick s = some s1 ∧
        nextWave s.currentWave = some s1.currentWave) ∧
      waveClicks 4 s = some s ∧
      (∀ k : ℕ, 0 < k → k < 4 → ∃ sk : WaveState, waveClicks k s = some sk ∧
        sk.currentWave ≠ s.currentWave ∧ sk.waveIndex ≠ s.waveIndex) ∧
      (∃ s0 : WaveState, waveAfterClicks text 0 = some s0 ∧
        s0.currentWave = "sine" ∧ s0.waveIndex = 0) := by
  have hlt : n % 4 < 4 := Nat.mod_lt _ (by norm_num)
  refine ⟨waveStateAt (n % 4), ?_, ?_, ?_, ?_, ?_, ?_, ?_⟩
  · simp only [waveAfterClicks, waveInit_eq, Option.some_bind]
    rw [waveClicks_at n 0 (by norm_num)]
    simp
  · generalize n % 4 = i at hlt
    interval_cases i <;> rfl
  · rfl
  · refine ⟨waveStateAt ((n % 4 + 1) % 4), waveToggleClick_at _ hlt, ?_⟩
    generalize n % 4 = i at hlt
    interval_cases i <;> decide
  · rw [waveClicks_at 4 _ hlt]
    congr 2
    omega
  · intro k hk0 hk4
    refine ⟨waveStateAt ((n % 4 + k) % 4), waveClicks_at k _ hlt, ?_⟩
    generalize n % 4 = i at hlt
    interval_cases i <;> interval_cases k <;> decide
  · exact ⟨waveStateAt 0, by simp [waveAfterClicks, waveInit_eq, waveClicks], rfl, rfl⟩

/-- C6 at a sample: one click after loading gives square, and two clicks do not
lead back to sine. -/
theorem waveToggle_cycle_witness :
    ∃ s : WaveState, waveAfterClicks "SINE" 0 = some s ∧
      ∃ sk : WaveState, waveClicks 2 s = some sk ∧ sk.currentWave ≠ s.currentWave := by
  obtain ⟨s, hs, _, _, _, _, hk, _⟩ := waveToggle_cycle "SINE" 0
  obtain ⟨sk, hsk, hne, _⟩ := hk 2 (by norm_num) (by norm_num)
  exact ⟨s, hs, sk, hsk, hne⟩

/-! ## Properties of the circular knob -/

/-- Rounding moves a number by at most one half. -/
theorem jsRound_close (z : ℚ) : |(jsRound z : ℚ) - z| ≤ 1 / 2 := by
  have h1 : ((jsRound z : ℤ) : ℚ) ≤ z + 1 / 2 := Int.floor_le _
  have h2 : z + 1 / 2 < (jsRound z : ℚ) + 1 := Int.lt_floor_add_one _
  rw [abs_le]
  constructor <;> linarith

/-- The width angleMax - angleMin of the arc is the binary64 number 270. -/
theorem fl_span : fl (angleMax - angleMin) = 270 := by
  rw [show angleMax - angleMin = 270 by norm_num [angleMax, angleMin]]; exact fl_270

/-- The rounded width of a knob range of at least 2^-900 is positive. -/
theorem fl_range_pos {w : ℚ} (hw : 2 ^ (-900 : ℤ) ≤ w) : 0 < fl w := by
  have hpos : 0 < w := lt_of_lt_of_le (by positivity) hw
  have he := fl_error w
  rw [abs_of_pos hpos] at he
  obtain ⟨h1, _⟩ := abs_le.mp he
  norm_num at hw h1
  linarith

/-- The angle computed for a value v of the knob lies on the arc from -135 to 135
degrees and is within 2296 * 2^-53 of the exact angle of v. -/
theorem valueToAngle_near (k : Knob) (v M : ℚ)
    (hmn : -M ≤ k.minVal) (hmx : k.maxVal ≤ M) (hW : 2 ^ (-900 : ℤ) ≤ k.maxVal - k.minVal)
    (hv1 : k.minVal ≤ v) (hv2 : v ≤ k.maxVal) :
    -135 ≤ valueToAngle k v ∧ valueToAngle k v ≤ 135 ∧
      |valueToAngle k v - (-135 + 270 * ((v - k.minVal) / (k.maxVal - k.minVal)))|
        ≤ 2296 * 2 ^ (-53 : ℤ) := by
  obtain ⟨mn, mx, st⟩ := k
  simp only at hmn hmx hW hv1 hv2 ⊢
  have hWpos : 0 < mx - mn := lt_of_lt_of_le (by positivity) hW
  -- D
  have hDe := fl_error (mx - mn)
  rw [abs_of_pos hWpos] at hDe
  obtain ⟨hD1, hD2⟩ := abs_le.mp hDe
  have hD0 : 0 ≤ fl (mx - mn) := fl_nonneg hWpos.le
  norm_num at hW hD1 hD2
  have hDlo : (4 / 5) * (mx - mn) ≤ fl (mx - mn) := by linarith
  have hDpos : 0 < fl (mx - mn) := by linarith
  -- a1
  have ha0 : 0 ≤ v - mn := by linarith
  have haW : v - mn ≤ mx - mn := by linarith
  have ha1e := fl_error (v - mn)
  rw [abs_of_nonneg ha0] at ha1e
  obtain ⟨ha1, ha2⟩ := abs_le.mp ha1e
  norm_num at ha1 ha2
  have ha10 : 0 ≤ fl (v - mn) := fl_nonneg ha0
  have ha1D : fl (v - mn) ≤ fl (mx - mn) := fl_mono haW
  -- r
  have hr0 : 0 ≤ fl (v - mn) / fl (mx - mn) := div_nonneg ha10 hD0
  have hr1 : fl (v - mn) / fl (mx - mn) ≤ 1 := (div_le_one hDpos).mpr ha1D
  have ht0 : 0 ≤ (v - mn) / (mx - mn) := div_nonneg ha0 hWpos.le
  have ht1 : (v - mn) / (mx - mn) ≤ 1 := (div_le_one hWpos).mpr haW
  have hid : (fl (v - mn) / fl (mx - mn) - (v - mn) / (mx - mn)) * fl (mx - mn)
      = (fl (v - mn) - (v - mn)) - (v - mn) / (mx - mn) * (fl (mx - mn) - (mx - mn)) := by
    field_simp
    ring
  have hrt : |fl (v - mn) / fl (mx - mn) - (v - mn) / (mx - mn)| ≤ 5 * (1 / 9007199254740992) := by
    have hb : |(fl (v - mn) / fl (mx - mn) - (v - mn) / (mx - mn)) * fl (mx - mn)|
        ≤ 4 * (1 / 9007199254740992) * (mx - mn) := by
      rw [hid]
      have h1 : |fl (v - mn) - (v - mn)| ≤ 2 * (1 / 9007199254740992) * (mx - mn) := by
        rw [abs_le]; constructor <;> linarith
      have h2 : |(v - mn) / (mx - mn) * (fl (mx - mn) - (mx - mn))|
          ≤ 2 * (1 / 9007199254740992) * (mx - mn) := by
        rw [abs_mul, abs_of_nonneg ht0]
        have h3 : |fl (mx - mn) - (mx - mn)| ≤ 2 * (1 / 9007199254740992) * (mx - mn) := by
          rw [abs_le]; constructor <;> linarith
        calc (v - mn) / (mx - mn) * |fl (mx - mn) - (mx - mn)|
            ≤ 1 * |fl (mx - mn) - (mx - mn)| :=
              mul_le_mul_of_nonneg_right ht1 (abs_nonneg _)
          _ ≤ 2 * (1 / 9007199254740992) * (mx - mn) := by linarith
      calc |fl (v - mn) - (v - mn) - (v - mn) / (mx - mn) * (fl (mx - mn) - (mx - mn))|
          ≤ |fl (v - mn) - (v - mn)| + |(v - mn) / (mx - mn) * (fl (mx - mn) - (mx - mn))| :=
            abs_sub _ _
        _ ≤ 4 * (1 / 9007199254740992) * (mx - mn) := by linarith
    rw [abs_mul, abs_of_pos hDpos] at hb
    have hx := abs_nonneg (fl (v - mn) / fl (mx - mn) - (v - mn) / (mx - mn))
    by_contra hcon
    push_neg at hcon
    have : 5 * (1 / 9007199254740992) * ((4 / 5) * (mx - mn))
        < |fl (v - mn) / fl (mx - mn) - (v - mn) / (mx - mn)| * fl (mx - mn) := by
      calc 5 * (1 / 9007199254740992) * ((4 / 5) * (mx - mn))
          < |fl (v - mn) / fl (mx - mn) - (v - mn) / (mx - mn)| * ((4 / 5) * (mx - mn)) :=
            mul_lt_mul_of_pos_right hcon (by linarith)
        _ ≤ |fl (v - mn) / fl (mx - mn) - (v - mn) / (mx - mn)| * fl (mx - mn) :=
            mul_le_mul_of_nonneg_left hDlo hx
    linarith
  obtain ⟨hrt1, hrt2⟩ := abs_le.mp hrt
  -- t
  have hte := fl_error_le (B := 1) (q := fl (v - mn) / fl (mx - mn))
    (by rw [abs_of_nonneg hr0]; exact hr1)
  obtain ⟨hte1, hte2⟩ := abs_le.mp hte
  obtain ⟨htl, hth⟩ := fl_mem_Icc hr0 hr1 fl_zero fl_one
  norm_num at hte1 hte2
  -- p
  have hq3a : 0 ≤ fl (fl (v - mn) / fl (mx - mn)) * 270 := by positivity
  have hq3b : fl (fl (v - mn) / fl (mx - mn)) * 270 ≤ 270 := by linarith
  have hpe := fl_error_le (B := 270) (q := fl (fl (v - mn) / fl (mx - mn)) * 270)
    (by rw [abs_of_nonneg hq3a]; exact hq3b)
  obtain ⟨hpe1, hpe2⟩ := abs_le.mp hpe
  obtain ⟨hpl, hph⟩ := fl_mem_Icc hq3a hq3b fl_zero fl_270
  norm_num at hpe1 hpe2
  -- ang
  have hq4a : (-135 : ℚ) ≤ -135 + fl (fl (fl (v - mn) / fl (mx - mn)) * 270) := by linarith
  have hq4b : -135 + fl (fl (fl (v - mn) / fl (mx - mn)) * 270) ≤ (135 : ℚ) := by linarith
  have hae := fl_error_le (B := 135) (q := -135 + fl (fl (fl (v - mn) / fl (mx - mn)) * 270))
    (by rw [abs_le]; constructor <;> linarith)
  obtain ⟨hae1, hae2⟩ := abs_le.mp hae
  obtain ⟨hal, hah⟩ := fl_mem_Icc hq4a hq4b fl_neg_135 fl_135
  norm_num at hae1 hae2
  simp only [valueToAngle]
  rw [fl_span]
  simp only [angleMin]
  refine ⟨hal, hah, ?_⟩
  rw [abs_le]
  norm_num
  constructor <;> linarith

/-- The value computed from an angle that is within 2296 * 2^-53 of the exact angle of
the fraction t0 of the knob range is within one step of the exact value at t0. -/
theorem angleToValue_near (k : Knob) (a t0 M : ℚ)
    (hmn : -M ≤ k.minVal) (hmx : k.maxVal ≤ M)
    (hW : 2 ^ (-900 : ℤ) ≤ k.maxVal - k.minVal)
    (hst : 2 ^ (-40 : ℤ) * M ≤ k.stepVal)
    (ha1 : -135 ≤ a) (ha2 : a ≤ 135) (ht0 : 0 ≤ t0) (ht1 : t0 ≤ 1)
    (hnear : |a - (-135 + 270 * t0)| ≤ 2296 * 2 ^ (-53 : ℤ)) :
    |angleToValue k a - (k.minVal + t0 * (k.maxVal - k.minVal))| ≤ k.stepVal := by
  obtain ⟨mn, mx, st⟩ := k
  simp only [angleToValue]
  rw [fl_span]
  simp only [angleMin, sub_neg_eq_add] at hmn hmx hW hst ⊢
  have hWpos : 0 < mx - mn := lt_of_lt_of_le (by positivity) hW
  obtain ⟨hn1, hn2⟩ := abs_le.mp hnear
  norm_num at hW hst hn1 hn2
  have hMpos : 0 < M := by linarith
  have hstpos : 0 < st := by linarith
  clear hnear
  -- b1
  have hq5a : (0 : ℚ) ≤ a + 135 := by linarith
  have hq5b : a + 135 ≤ (270 : ℚ) := by linarith
  have hbe := fl_error_le (B := 270) (q := a + 135) (by rw [abs_of_nonneg hq5a]; exact hq5b)
  obtain ⟨hbe1, hbe2⟩ := abs_le.mp hbe
  obtain ⟨hbl, hbh⟩ := fl_mem_Icc hq5a hq5b fl_zero fl_270
  clear hbe
  generalize fl (a + 135) = b1 at *
  norm_num at hbe1 hbe2
  -- t'
  have hq6a : 0 ≤ b1 / 270 := by positivity
  have hq6b : b1 / 270 ≤ 1 := by linarith
  have hte := fl_error_le (B := 1) (q := b1 / 270) (by rw [abs_of_nonneg hq6a]; exact hq6b)
  obtain ⟨hte1, hte2⟩ := abs_le.mp hte
  obtain ⟨htl, hth⟩ := fl_mem_Icc hq6a hq6b fl_zero fl_one
  clear hte
  generalize fl (b1 / 270) = t' at *
  norm_num at hte1 hte2
  have htt : |t' - t0| ≤ 11 * (1 / 9007199254740992) := by
    rw [abs_le]; constructor <;> linarith
  -- D
  have hDe := fl_error (mx - mn)
  rw [abs_of_pos hWpos] at hDe
  obtain ⟨hD1, hD2⟩ := abs_le.mp hDe
  have hD0 : 0 ≤ fl (mx - mn) := fl_nonneg hWpos.le
  clear hDe
  generalize fl (mx - mn) = D at *
  norm_num at hD1 hD2
  have hDhi : D ≤ 2 * (mx - mn) := by linarith
  have hDW : |D - (mx - mn)| ≤ 2 * (1 / 9007199254740992) * (mx - mn) := by
    rw [abs_le]; constructor <;> linarith
  -- m
  have hq7a : 0 ≤ t' * D := mul_nonneg htl hD0
  have hq7b : t' * D ≤ 2 * (mx - mn) := by
    calc t' * D ≤ 1 * D := mul_le_mul_of_nonneg_right hth hD0
      _ ≤ 2 * (mx - mn) := by linarith
  have hme := fl_error_le (B := 2 * (mx - mn)) (q := t' * D)
    (by rw [abs_of_nonneg hq7a]; exact hq7b)
  obtain ⟨hme1, hme2⟩ := abs_le.mp hme
  have hq7 : |t' * D - t0 * (mx - mn)| ≤ 24 * (1 / 9007199254740992) * (mx - mn) := by
    have hid : t' * D - t0 * (mx - mn) = (t' - t0) * D + t0 * (D - (mx - mn)) := by ring
    rw [hid]
    have h1 : |(t' - t0) * D| ≤ 11 * (1 / 9007199254740992) * (2 * (mx - mn)) := by
      rw [abs_mul, abs_of_nonneg hD0]
      exact mul_le_mul htt hDhi hD0 (by norm_num)
    have h2 : |t0 * (D - (mx - mn))| ≤ 2 * (1 / 9007199254740992) * (mx - mn) := by
      rw [abs_mul, abs_of_nonneg ht0]
      calc t0 * |D - (mx - mn)| ≤ 1 * |D - (mx - mn)| :=
            mul_le_mul_of_nonneg_right ht1 (abs_nonneg _)
        _ ≤ 2 * (1 / 9007199254740992) * (mx - mn) := by linarith
    calc |(t' - t0) * D + t0 * (D - (mx - mn))|
        ≤ |(t' - t0) * D| + |t0 * (D - (mx - mn))| := abs_add _ _
      _ ≤ 24 * (1 / 9007199254740992) * (mx - mn) := by linarith
  obtain ⟨hq71, hq72⟩ := abs_le.mp hq7
  have haa0 : 0 ≤ t0 * (mx - mn) := mul_nonneg ht0 hWpos.le
  have haa1 : t0 * (mx - mn) ≤ 1 * (mx - mn) := mul_le_mul_of_nonneg_right ht1 hWpos.le
  clear hme hq7 hDW htt
  generalize fl (t' * D) = m at *
  generalize t' * D = q7 at *
  generalize t0 * (mx - mn) = aa at *
  norm_num at hme1 hme2
  -- raw
  have hq8 : |mn + m| ≤ 2 * M := by
    rw [abs_le]; constructor <;> linarith
  have hre := fl_error_le hq8
  obtain ⟨hre1, hre2⟩ := abs_le.mp hre
  clear hre
  generalize fl (mn + m) = raw at *
  norm_num at hre1 hre2
  have hraw : |raw| ≤ 2 * M := by
    rw [abs_le]; constructor <;> linarith
  -- z
  have hze := fl_error (raw / st)
  have hzst : |fl (raw / st) * st - raw| ≤ 2 ^ (-53 : ℤ) * (2 * M) + 2 ^ (-1075 : ℤ) * st := by
    have hid : fl (raw / st) * st - raw = (fl (raw / st) - raw / st) * st := by
      field_simp
    rw [hid, abs_mul, abs_of_pos hstpos]
    have hq9 : |raw / st| * st = |raw| := by
      rw [abs_div, abs_of_pos hstpos]; field_simp
    have h53 : (0 : ℚ) < 2 ^ (-53 : ℤ) := by positivity
    calc |fl (raw / st) - raw / st| * st
        ≤ (2 ^ (-53 : ℤ) * |raw / st| + 2 ^ (-1075 : ℤ)) * st :=
          mul_le_mul_of_nonneg_right hze hstpos.le
      _ = 2 ^ (-53 : ℤ) * (|raw / st| * st) + 2 ^ (-1075 : ℤ) * st := by ring
      _ = 2 ^ (-53 : ℤ) * |raw| + 2 ^ (-1075 : ℤ) * st := by rw [hq9]
      _ ≤ 2 ^ (-53 : ℤ) * (2 * M) + 2 ^ (-1075 : ℤ) * st := by
          have := mul_le_mul_of_nonneg_left hraw h53.le
          linarith
  obtain ⟨hz1, hz2⟩ := abs_le.mp hzst
  obtain ⟨hraw1, hraw2⟩ := abs_le.mp hraw
  clear hze hzst hraw
  generalize fl (raw / st) = z at *
  norm_num at hz1 hz2
  -- n
  have hne := jsRound_close z
  have hnst : |(jsRound z : ℚ) * st - z * st| ≤ 1 / 2 * st := by
    rw [← sub_mul, abs_mul, abs_of_pos hstpos]
    exact mul_le_mul_of_nonneg_right hne hstpos.le
  obtain ⟨hns1, hns2⟩ := abs_le.mp hnst
  clear hne hnst
  generalize (jsRound z : ℚ) * st = q11 at *
  generalize z * st = zs at *
  -- result
  have hq11 : |q11| ≤ 3 * M + st := by
    rw [abs_le]; constructor <;> linarith
  have hfe := fl_error_le hq11
  obtain ⟨hfe1, hfe2⟩ := abs_le.mp hfe
  clear hfe
  generalize fl q11 = res at *
  norm_num at hfe1 hfe2
  rw [abs_le]
  constructor <;> linarith

/-- The round trip of the value 0.57 on the knob with min 0, max 1 and step 0.01, traced
rounding by rounding: the angle is 18.899999999999977 and the value recovered is
0.5700000000000001. -/
theorem knob_trace_grid :
    fl (57 / 100) = (5134103575202365 / 9007199254740992 : ℚ) ∧
      (attachCircularKnob 0 1 (fl (1 / 100))).stepVal = (5764607523034235 / 576460752303423488 : ℚ) ∧
      valueToAngle (attachCircularKnob 0 1 (fl (1 / 100))) (fl (57 / 100)) = (166246158119731 / 8796093022208 : ℚ) ∧
      angleToValue (attachCircularKnob 0 1 (fl (1 / 100))) (valueToAngle (attachCircularKnob 0 1 (fl (1 / 100))) (fl (57 / 100))) =
        (2567051787601183 / 4503599627370496 : ℚ) := by
  have hst : fl (1 / 100) = (5764607523034235 / 576460752303423488 : ℚ) := by
    rw [fl_eval (-7) 5764607523034235 (by norm_num) (by norm_num) (by norm_num) (by norm_num)
      (by norm_num [abs_lt])]
    norm_num
  have hv : fl (57 / 100) = (5134103575202365 / 9007199254740992 : ℚ) := by
    rw [fl_eval (-1) 5134103575202365 (by norm_num) (by norm_num) (by norm_num) (by norm_num)
      (by norm_num [abs_lt])]
    norm_num
  have hA1 : fl ((5134103575202365 / 9007199254740992 : ℚ) - (0 : ℚ)) = (5134103575202365 / 9007199254740992 : ℚ) := by
    rw [fl_eval (-1) 5134103575202365 (by norm_num) (by norm_num) (by norm_num) (by norm_num)
      (by norm_num [abs_lt])]
    norm_num
  have hD : fl ((1 : ℚ) - (0 : ℚ)) = (1 : ℚ) := by
    rw [fl_eval (0) 4503599627370496 (by norm_num) (by norm_num) (by norm_num) (by norm_num)
      (by norm_num [abs_lt])]
    norm_num
  have hT : fl ((5134103575202365 / 9007199254740992 : ℚ) / (1 : ℚ)) = (5134103575202365 / 9007199254740992 : ℚ) := by
    rw [fl_eval (-1) 5134103575202365 (by norm_num) (by norm_num) (by norm_num) (by norm_num)
      (by norm_num [abs_lt])]
    norm_num
  have hP : fl ((5134103575202365 / 9007199254740992 : ℚ) * 270) = (1353718716117811 / 8796093022208 : ℚ) := by
    rw [fl_eval (7) 5414874864471244 (by norm_num) (by norm_num) (by norm_num) (by norm_num)
      (by norm_num [abs_lt])]
    norm_num
  have hANG : fl (-135 + (1353718716117811 / 8796093022208 : ℚ)) = (166246158119731 / 8796093022208 : ℚ) := by
    rw [fl_eval (4) 5319877059831392 (by norm_num) (by norm_num) (by norm_num) (by norm_num)
      (by norm_num [abs_lt])]
    norm_num
  have hB1 : fl ((166246158119731 / 8796093022208 : ℚ) - -135) = (1353718716117811 / 8796093022208 : ℚ) := by
    rw [fl_eval (7) 5414874864471244 (by norm_num) (by norm_num) (by norm_num) (by norm_num)
      (by norm_num [abs_lt])]
    norm_num
  have hT2 : fl ((1353718716117811 / 8796093022208 : ℚ) / 270) = (5134103575202365 / 9007199254740992 : ℚ) := by
    rw [fl_eval (-1) 5134103575202365 (by norm_num) (by norm_num) (by norm_num) (by norm_num)
      (by norm_num [abs_lt])]
    norm_num
  have hM7 : fl ((5134103575202365 / 9007199254740992 : ℚ) * (1 : ℚ)) = (5134103575202365 / 9007199254740992 : ℚ) := by
    rw [fl_eval (-1) 5134103575202365 (by norm_num) (by norm_num) (by norm_num) (by norm_num)
      (by norm_num [abs_lt])]
    norm_num
  have hRAW : fl ((0 : ℚ) + (5134103575202365 / 9007199254740992 : ℚ)) = (5134103575202365 / 9007199254740992 : ℚ) := by
    rw [fl_eval (-1) 5134103575202365 (by norm_num) (by norm_num) (by norm_num) (by norm_num)
      (by norm_num [abs_lt])]
    norm_num
  have hZ : fl ((5134103575202365 / 9007199254740992 : ℚ) / (5764607523034235 / 576460752303423488 : ℚ)) = (8022036836253695 / 140737488355328 : ℚ) := by
    rw [fl_eval (5) 8022036836253695 (by norm_num) (by norm_num) (by norm_num) (by norm_num)
      (by norm_num [abs_lt])]
    norm_num
  have hN : jsRound (8022036836253695 / 140737488355328 : ℚ) = 57 := by
    unfold jsRound
    rw [Int.floor_eq_iff]
    constructor <;> norm_num
  have hRES : fl (((57 : ℤ) : ℚ) * (5764607523034235 / 576460752303423488 : ℚ)) = (2567051787601183 / 4503599627370496 : ℚ) := by
    rw [fl_eval (-1) 5134103575202366 (by norm_num) (by norm_num) (by norm_num) (by norm_num)
      (by norm_num [abs_lt])]
    norm_num
  have hk : attachCircularKnob 0 1 (fl (1 / 100)) =
      { minVal := 0, maxVal := 1, stepVal := (5764607523034235 / 576460752303423488 : ℚ) } := by
    simp only [attachCircularKnob, hst]
    norm_num
  refine ⟨hv, ?_, ?_, ?_⟩
  · rw [hk]
  · rw [hk]
    simp only [valueToAngle]
    rw [fl_span]
    simp only [angleMin]
    rw [hv, hA1, hD, hT, hP, hANG]
  · rw [hk]
    simp only [angleToValue, valueToAngle]
    rw [fl_span]
    simp only [angleMin]
    rw [hv, hA1, hD, hT, hP, hANG, hB1, hT2, hM7, hRAW, hZ, hN, hRES]

/-- The round trip of the value 0.25 on the knob with min 0, max 100 and step 2^-50,
traced rounding by rounding: the value recovered is 0.25 + 5 * 2^-50. -/
theorem knob_trace_fine :
    fl (1 / 4) = (1 / 4 : ℚ) ∧
      (attachCircularKnob 0 100 (fl (1 / 2 ^ 50))).stepVal = (1 / 1125899906842624 : ℚ) ∧
      valueToAngle (attachCircularKnob 0 100 (fl (1 / 2 ^ 50))) (fl (1 / 4)) = (-2363070390416179 / 17592186044416 : ℚ) ∧
      angleToValue (attachCircularKnob 0 100 (fl (1 / 2 ^ 50))) (valueToAngle (attachCircularKnob 0 100 (fl (1 / 2 ^ 50))) (fl (1 / 4))) =
        (281474976710661 / 1125899906842624 : ℚ) := by
  have hst : fl (1 / 2 ^ 50) = (1 / 1125899906842624 : ℚ) := by
    rw [fl_eval (-50) 4503599627370496 (by norm_num) (by norm_num) (by norm_num) (by norm_num)
      (by norm_num [abs_lt])]
    norm_num
  have hv : fl (1 / 4) = (1 / 4 : ℚ) := by
    rw [fl_eval (-2) 4503599627370496 (by norm_num) (by norm_num) (by norm_num) (by norm_num)
      (by norm_num [abs_lt])]
    norm_num
  have hA1 : fl ((1 / 4 : ℚ) - (0 : ℚ)) = (1 / 4 : ℚ) := by
    rw [fl_eval (-2) 4503599627370496 (by norm_num) (by norm_num) (by norm_num) (by norm_num)
      (by norm_num [abs_lt])]
    norm_num
  have hD : fl ((100 : ℚ) - (0 : ℚ)) = (100 : ℚ) := by
    rw [fl_eval (6) 7036874417766400 (by norm_num) (by norm_num) (by norm_num) (by norm_num)
      (by norm_num [abs_lt])]
    norm_num
  have hT : fl ((1 / 4 : ℚ) / (100 : ℚ)) = (5764607523034235 / 2305843009213693952 : ℚ) := by
    rw [fl_eval (-9) 5764607523034235 (by norm_num) (by norm_num) (by norm_num) (by norm_num)
      (by norm_num [abs_lt])]
    norm_num
  have hP : fl ((5764607523034235 / 2305843009213693952 : ℚ) * 270) = (3039929748475085 / 4503599627370496 : ℚ) := by
    rw [fl_eval (-1) 6079859496950170 (by norm_num) (by norm_num) (by norm_num) (by norm_num)
      (by norm_num [abs_lt])]
    norm_num
  have hANG : fl (-135 + (3039929748475085 / 4503599627370496 : ℚ)) = (-2363070390416179 / 17592186044416 : ℚ) := by
    rw [fl_eval_neg (7) 4726140780832358 (by norm_num) (by norm_num) (by norm_num) (by norm_num)
      (by norm_num [abs_lt])]
    norm_num
  have hB1 : fl ((-2363070390416179 / 17592186044416 : ℚ) - -135) = (11874725579981 / 17592186044416 : ℚ) := by
    rw [fl_eval (-1) 6079859496950272 (by norm_num) (by norm_num) (by norm_num) (by norm_num)
      (by norm_num [abs_lt])]
    norm_num
  have hT2 : fl ((11874725579981 / 17592186044416 : ℚ) / 270) = (1441151880758583 / 576460752303423488 : ℚ) := by
    rw [fl_eval (-9) 5764607523034332 (by norm_num) (by norm_num) (by norm_num) (by norm_num)
      (by norm_num [abs_lt])]
    norm_num
  have hM7 : fl ((1441151880758583 / 576460752303423488 : ℚ) * (100 : ℚ)) = (1125899906842643 / 4503599627370496 : ℚ) := by
    rw [fl_eval (-2) 4503599627370572 (by norm_num) (by norm_num) (by norm_num) (by norm_num)
      (by norm_num [abs_lt])]
    norm_num
  have hRAW : fl ((0 : ℚ) + (1125899906842643 / 4503599627370496 : ℚ)) = (1125899906842643 / 4503599627370496 : ℚ) := by
    rw [fl_eval (-2) 4503599627370572 (by norm_num) (by norm_num) (by norm_num) (by norm_num)
      (by norm_num [abs_lt])]
    norm_num
  have hZ : fl ((1125899906842643 / 4503599627370496 : ℚ) / (1 / 1125899906842624 : ℚ)) = (1125899906842643 / 4 : ℚ) := by
    rw [fl_eval (48) 4503599627370572 (by norm_num) (by norm_num) (by norm_num) (by norm_num)
      (by norm_num [abs_lt])]
    norm_num
  have hN : jsRound (1125899906842643 / 4 : ℚ) = 281474976710661 := by
    unfold jsRound
    rw [Int.floor_eq_iff]
    constructor <;> norm_num
  have hRES : fl (((281474976710661 : ℤ) : ℚ) * (1 / 1125899906842624 : ℚ)) = (281474976710661 / 1125899906842624 : ℚ) := by
    rw [fl_eval (-2) 4503599627370576 (by norm_num) (by norm_num) (by norm_num) (by norm_num)
      (by norm_num [abs_lt])]
    norm_num
  have hk : attachCircularKnob 0 100 (fl (1 / 2 ^ 50)) =
      { minVal := 0, maxVal := 100, stepVal := (1 / 1125899906842624 : ℚ) } := by
    simp only [attachCircularKnob, hst]
    norm_num
  refine ⟨hv, ?_, ?_, ?_⟩
  · rw [hk]
  · rw [hk]
    simp only [valueToAngle]
    rw [fl_span]
    simp only [angleMin]
    rw [hv, hA1, hD, hT, hP, hANG]
  · rw [hk]
    simp only [angleToValue, valueToAngle]
    rw [fl_span]
    simp only [angleMin]
    rw [hv, hA1, hD, hT, hP, hANG, hB1, hT2, hM7, hRAW, hZ, hN, hRES]

/-- C7 (counterexample): on the knob with min 0, max 1 and step 0.01 the value 0.57,
which is 57 times the step as written, lies between min and max but the value
recovered from its angle is 0.5700000000000001 and not 0.57.  On the knob with
min 0, max 100 and step 2^-50 the value recovered from the angle of 0.25 is more
than one step away from 0.25. -/
theorem knob_round_trip_not_exact :
    (57 / 100 : ℚ) = 57 * (1 / 100) ∧
      (0 : ℚ) < 1 ∧ 0 < (attachCircularKnob 0 1 (fl (1 / 100))).stepVal ∧
      0 ≤ fl (57 / 100) ∧ fl (57 / 100) ≤ 1 ∧
      angleToValue (attachCircularKnob 0 1 (fl (1 / 100)))
        (valueToAngle (attachCircularKnob 0 1 (fl (1 / 100))) (fl (57 / 100))) ≠ fl (57 / 100) ∧
      (0 : ℚ) < 100 ∧ 0 < (attachCircularKnob 0 100 (fl (1 / 2 ^ 50))).stepVal ∧
      0 ≤ fl (1 / 4) ∧ fl (1 / 4) ≤ 100 ∧
      (attachCircularKnob 0 100 (fl (1 / 2 ^ 50))).stepVal <
        |angleToValue (attachCircularKnob 0 100 (fl (1 / 2 ^ 50)))
          (valueToAngle (attachCircularKnob 0 100 (fl (1 / 2 ^ 50))) (fl (1 / 4))) - fl (1 / 4)| := by
  obtain ⟨hv, hs, _, hr⟩ := knob_trace_grid
  obtain ⟨hv2, hs2, _, hr2⟩ := knob_trace_fine
  refine ⟨by norm_num, by norm_num, ?_, ?_, ?_, ?_, by norm_num, ?_, ?_, ?_, ?_⟩
  · rw [hs]; norm_num
  · rw [hv]; norm_num
  · rw [hv]; norm_num
  · rw [hr, hv]; norm_num
  · rw [hs2]; norm_num
  · rw [hv2]; norm_num
  · rw [hv2]; norm_num
  · rw [hr2, hs2, hv2]
    norm_num [abs_of_pos]

/-- C7 (amended): for a knob whose min and max have magnitude at most M, with
M ≤ 2^900, max - min ≥ 2^-900 and 2^-40 * M ≤ step ≤ 2^900 (so min < max and
step > 0), and a value v between min and max: the value recovered from the angle
of v differs from v by at most one step and is of magnitude at most 2^901; the
angle of v lies on the arc from -135 to 135 degrees; and the angles of min and
max are -135 and 135 degrees. -/
theorem knob_round_trip (k : Knob) (v M : ℚ)
    (hmn : -M ≤ k.minVal) (hmx : k.maxVal ≤ M) (hM : M ≤ 2 ^ (900 : ℤ))
    (hW : 2 ^ (-900 : ℤ) ≤ k.maxVal - k.minVal)
    (hst : 2 ^ (-40 : ℤ) * M ≤ k.stepVal) (hst2 : k.stepVal ≤ 2 ^ (900 : ℤ))
    (hv1 : k.minVal ≤ v) (hv2 : v ≤ k.maxVal) :
    |angleToValue k (valueToAngle k v) - v| ≤ k.stepVal ∧
      |angleToValue k (valueToAngle k v)| ≤ 2 ^ (901 : ℤ) ∧
      (-135 ≤ valueToAngle k v ∧ valueToAngle k v ≤ 135) ∧
      valueToAngle k k.minVal = -135 ∧
      valueToAngle k k.maxVal = 135 := by
  obtain ⟨hlo, hhi, hnear⟩ := valueToAngle_near k v M hmn hmx hW hv1 hv2
  have hWpos : 0 < k.maxVal - k.minVal := lt_of_lt_of_le (by positivity) hW
  have ht0 : 0 ≤ (v - k.minVal) / (k.maxVal - k.minVal) :=
    div_nonneg (by linarith) hWpos.le
  have ht1 : (v - k.minVal) / (k.maxVal - k.minVal) ≤ 1 :=
    (div_le_one hWpos).mpr (by linarith)
  have hback := angleToValue_near k (valueToAngle k v) _ M hmn hmx hW hst hlo hhi ht0 ht1 hnear
  have hval : k.minVal + (v - k.minVal) / (k.maxVal - k.minVal) * (k.maxVal - k.minVal) = v := by
    field_simp
  rw [hval] at hback
  have hDne : fl (k.maxVal - k.minVal) ≠ 0 := ne_of_gt (fl_range_pos hW)
  refine ⟨hback, ?_, ⟨hlo, hhi⟩, ?_, ?_⟩
  · obtain ⟨hb1, hb2⟩ := abs_le.mp hback
    rw [abs_le]
    norm_num at hM hst2 ⊢
    constructor <;> linarith
  · simp only [valueToAngle, sub_self, fl_zero, zero_div, zero_mul, add_zero, angleMin,
      fl_neg_135]
  · simp only [valueToAngle]
    rw [div_self hDne, fl_one, fl_span, one_mul, fl_270]
    simp only [angleMin]
    norm_num
    exact fl_135

/-- C7 (amended) at a sample: the knob with min 0, max 1 and the binary64 step 0.01,
at the binary64 value 0.57: the value recovered is within one step of 0.57. -/
theorem knob_round_trip_witness :
    |angleToValue
          { minVal := 0, maxVal := 1, stepVal := 5764607523034235 / 576460752303423488 }
          (valueToAngle
            { minVal := 0, maxVal := 1, stepVal := 5764607523034235 / 576460752303423488 }
            (5134103575202365 / 9007199254740992))
        - 5134103575202365 / 9007199254740992|
      ≤ 5764607523034235 / 576460752303423488 :=
  (knob_round_trip
    { minVal := 0, maxVal := 1, stepVal := 5764607523034235 / 576460752303423488 }
    (5134103575202365 / 9007199254740992) 1
    (by norm_num) (by norm_num) (by norm_num) (by norm_num) (by norm_num) (by norm_num)
    (by norm_num) (by norm_num)).1

/-! ## Properties of the chord construction -/

/-- Inserting into a duplicate-free accumulator keeps it duplicate-free. -/
theorem foldl_setAdd_nodup {α : Type} [DecidableEq α] (xs acc : List α) (h : acc.Nodup) :
    (xs.foldl setAdd acc).Nodup := by
  induction xs generalizing acc with
  | nil => exact h
  | cons x rest ih =>
    apply ih
    unfold setAdd
    split
    · exact h
    · rename_i hx
      exact List.Nodup.append h (List.nodup_singleton x) (by simpa using hx)

/-- The values present after the insertions are those of the accumulator and those
inserted. -/
theorem mem_foldl_setAdd {α : Type} [DecidableEq α] (xs acc : List α) (n : α) :
    n ∈ xs.foldl setAdd acc ↔ n ∈ acc ∨ n ∈ xs := by
  induction xs generalizing acc with
  | nil => simp
  | cons x rest ih =>
    rw [List.foldl_cons, ih]
    unfold setAdd
    split
    · rename_i hx
      constructor
      · rintro (h | h)
        · exact Or.inl h
        · exact Or.inr (List.mem_cons_of_mem _ h)
      · rintro (h | h)
        · exact Or.inl h
        · rcases List.mem_cons.mp h with rfl | h
          · exact Or.inl hx
          · exact Or.inr h
    · simp only [List.mem_append, List.mem_singleton, List.mem_cons]
      tauto

/-- Inserting values that are new and pairwise distinct appends them in order. -/
theorem foldl_setAdd_of_nodup {α : Type} [DecidableEq α] (xs acc : List α)
    (h : (acc ++ xs).Nodup) : xs.foldl setAdd acc = acc ++ xs := by
  induction xs generalizing acc with
  | nil => simp
  | cons x rest ih =>
    have hx : x ∉ acc := by
      intro hmem
      have := List.nodup_append.mp h
      exact this.2.2 hmem (List.mem_cons_self x rest)
    have hstep : setAdd acc x = acc ++ [x] := by simp [setAdd, hx]
    rw [List.foldl_cons, hstep, ih (acc ++ [x]) (by simpa using h)]
    simp

/-- A list without duplicates is returned unchanged. -/
theorem arrayFromSet_of_nodup {α : Type} [DecidableEq α] (xs : List α) (h : xs.Nodup) :
    arrayFromSet xs = xs := by
  simpa [arrayFromSet] using foldl_setAdd_of_nodup xs [] (by simpa using h)

/-- After a duplicate-free list l, two further values of which the first is in l
and the second is new: only the second is appended. -/
theorem arrayFromSet_append_old_new {α : Type} [DecidableEq α] (l : List α) (x y : α)
    (hl : l.Nodup) (hx : x ∈ l) (hy : y ∉ l) : arrayFromSet (l ++ [x, y]) = l ++ [y] := by
  have h0 : l.foldl setAdd [] = l := arrayFromSet_of_nodup l hl
  simp [arrayFromSet, List.foldl_append, h0, setAdd, hx, hy]

/-- After a duplicate-free list l, two further values of which the first is new
and the second is in l: only the first is appended. -/
theorem arrayFromSet_append_new_old {α : Type} [DecidableEq α] (l : List α) (x y : α)
    (hl : l.Nodup) (hx : x ∉ l) (hy : y ∈ l) : arrayFromSet (l ++ [x, y]) = l ++ [x] := by
  have h0 : l.foldl setAdd [] = l := arrayFromSet_of_nodup l hl
  simp [arrayFromSet, List.foldl_append, h0, setAdd, hx, hy]

/-- C8: for every root and offsets a and b, and whatever the library operations
are, buildChord returns a list without duplicates whose elements are exactly the
three triad notes (root transposed by 0, 4 and 7 semitones) and the root
transposed by a and by b.  When the triad notes are distinct and one offset lands
on a triad note while the other gives a new note, the list has 4 elements; when
all five notes are distinct it has 5.  With notes identified by MIDI numbers, root
C4 with a = 3 and b = 10 gives C4, E4, G4, D#4, A#4 and with a = 4 and b = 10 it
gives the four notes C4, E4, G4, A#4. -/
theorem buildChord_spec {Note Freq : Type} [DecidableEq Note] (T : ToneFrequency Note Freq)
    (root : Note) (a b : ℤ) :
    (buildChord T root a b).Nodup ∧
      (∀ n : Note, n ∈ buildChord T root a b ↔
        n = T.freqTransposeToNote (T.toFrequency root) 0 ∨
        n = T.freqTransposeToNote (T.toFrequency root) 4 ∨
        n = T.freqTransposeToNote (T.toFrequency root) 7 ∨
        n = T.noteTransposeToNote root a ∨
        n = T.noteTransposeToNote root b) ∧
      ((major.map (T.freqTransposeToNote (T.toFrequency root))).Nodup →
        T.noteTransposeToNote root a ∈ major.map (T.freqTransposeToNote (T.toFrequency root)) →
        T.noteTransposeToNote root b ∉ major.map (T.freqTransposeToNote (T.toFrequency root)) →
        (buildChord T root a b).length = 4) ∧
      ((major.map (T.freqTransposeToNote (T.toFrequency root))).Nodup →
        T.noteTransposeToNote root b ∈ major.map (T.freqTransposeToNote (T.toFrequency root)) →
        T.noteTransposeToNote root a ∉ major.map (T.freqTransposeToNote (T.toFrequency root)) →
        (buildChord T root a b).length = 4) ∧
      ((major.map (T.freqTransposeToNote (T.toFrequency root)) ++
          [T.noteTransposeToNote root a, T.noteTransposeToNote root b]).Nodup →
        (buildChord T root a b).length = 5) ∧
      (buildChord midiTone 60 3 10).map midiToNote = ["C4", "E4", "G4", "D#4", "A#4"] ∧
      (buildChord midiTone 60 4 10).map midiToNote = ["C4", "E4", "G4", "A#4"] := by
  have hdef : buildChord T root a b =
      arrayFromSet (major.map (T.freqTransposeToNote (T.toFrequency root)) ++
        [T.noteTransposeToNote root a, T.noteTransposeToNote root b]) := rfl
  refine ⟨?_, ?_, ?_, ?_, ?_, ?_, ?_⟩
  · exact foldl_setAdd_nodup _ _ List.nodup_nil
  · intro n
    simp only [buildChord, arrayFromSet, mem_foldl_setAdd, major]
    simp
  · intro hnd ha hb
    rw [hdef, arrayFromSet_append_old_new _ _ _ hnd ha hb]
    simp [major]
  · intro hnd hb ha
    rw [hdef, arrayFromSet_append_new_old _ _ _ hnd ha hb]
    simp [major]
  · intro hnd
    rw [hdef, arrayFromSet_of_nodup _ hnd]
    simp [major]
  · decide
  · decide

/-- C8 at a sample: with notes as MIDI numbers, root 60 (C4) and offsets 7 and 10,
the first offset lands on the fifth of the triad and the chord has 4 notes. -/
theorem buildChord_spec_witness : (buildChord midiTone 60 7 10).length = 4 :=
  (buildChord_spec midiTone 60 7 10).2.2.1 (by decide) (by decide) (by decide)

/-! ## Properties of the recorder -/

/-- Whenever mediaRecorder holds a stopped recorder, the finish handler calls stop
once more and does not return normally. -/
theorem finishHandler_inactive (env : FinishEnv) (s : RecorderState)
    (h : s.mediaRecorder = some RecorderStatus.inactive) :
    (finishHandler env s).2.stopCalls = s.stopCalls + 1 ∧
      (finishHandler env s).1 ≠ Outcome.returned := by
  simp only [finishHandler, h]
  cases env.stopInactiveThrows <;> simp

/-- A click on an enabled finish button runs the finish handler. -/
theorem finishBtnClick_enabled (env : FinishEnv) (s : RecorderState)
    (h : s.finishBtnDisabled = false) : finishBtnClick env s = finishHandler env s := by
  simp [finishBtnClick, h]

/-- C9 (evaluation at the failing input): when no recording was ever started the
finish handler returns at once and changes nothing.  After a recording was started
and finished, mediaRecorder still holds the stopped recorder, so a further run of
the finish handler calls stop on it once more and does not return normally (it
throws or never settles, depending on the browser).  After a finish whose decoding
failed the finish button is still enabled and a click on it does the same. -/
theorem finishHandler_after_finish (r f v t : Bool) (size : ℕ) (env : FinishEnv) :
    finishHandler env (recorderInit r f) = (Outcome.returned, recorderInit r f) ∧
      (afterFinish r f v t size).mediaRecorder = some RecorderStatus.inactive ∧
      (afterFinish r f v t size).downloads.length = 1 ∧
      (finishHandler env (afterFinish r f v t size)).2.stopCalls
        = (afterFinish r f v t size).stopCalls + 1 ∧
      (finishHandler env (afterFinish r f v t size)).1 ≠ Outcome.returned ∧
      (afterFailedExport r f t size).mediaRecorder = some RecorderStatus.inactive ∧
      (afterFailedExport r f t size).finishBtnDisabled = false ∧
      (finishBtnClick env (afterFailedExport r f t size)).2.stopCalls
        = (afterFailedExport r f t size).stopCalls + 1 ∧
      (finishBtnClick env (afterFailedExport r f t size)).1 ≠ Outcome.returned := by
  have h1 : (afterFinish r f v t size).mediaRecorder = some RecorderStatus.inactive := by
    cases v <;> by_cases hs : size = 0 <;>
      simp [afterFinish, finishHandler, recordHandler, onDataAvailable, recorderInit, hs]
  have h2 : (afterFailedExport r f t size).mediaRecorder = some RecorderStatus.inactive := by
    by_cases hs : size = 0 <;>
      simp [afterFailedExport, finishBtnClick, finishHandler, recordHandler, onDataAvailable,
        recorderInit, hs]
  have h3 : (afterFailedExport r f t size).finishBtnDisabled = false := by
    by_cases hs : size = 0 <;>
      simp [afterFailedExport, finishBtnClick, finishHandler, recordHandler, onDataAvailable,
        recorderInit, hs]
  have h4 : (afterFinish r f v t size).downloads.length = 1 := by
    cases v <;> by_cases hs : size = 0 <;>
      simp [afterFinish, finishHandler, recordHandler, onDataAvailable, recorderInit, hs]
  refine ⟨rfl, h1, h4, ?_, ?_, h2, h3, ?_, ?_⟩
  · exact (finishHandler_inactive env _ h1).1
  · exact (finishHandler_inactive env _ h1).2
  · rw [finishBtnClick_enabled env _ h3]
    exact (finishHandler_inactive env _ h2).1
  · rw [finishBtnClick_enabled env _ h3]
    exact (finishHandler_inactive env _ h2).2

/-! ## Properties of the envelope mutation -/

/-- C10: for every decay value d the decay handler sets the envelope to attack
0.02, decay d, sustain 0.55 and release max(0.4, d) and leaves the oscillator
alone; the release is then at least 0.4 and at least the decay; and applying the
handler twice with the same d gives the same options as applying it once. -/
theorem decayInput_spec (d : ℚ) (s : SynthOptions) :
    (decayInput d s).envelope.decay = d ∧
      (decayInput d s).envelope.release = max (2 / 5) d ∧
      (decayInput d s).envelope.sustain = 11 / 20 ∧
      (decayInput d s).envelope.attack = 1 / 50 ∧
      (decayInput d s).oscillatorType = s.oscillatorType ∧
      2 / 5 ≤ (decayInput d s).envelope.release ∧
      (decayInput d s).envelope.decay ≤ (decayInput d s).envelope.release ∧
      decayInput d (decayInput d s) = decayInput d s := by
  refine ⟨rfl, ?_, ?_, ?_, rfl, ?_, ?_, rfl⟩
  · simp only [decayInput]; norm_num
  · simp only [decayInput]; norm_num
  · simp only [decayInput]; norm_num
  · simp only [decayInput]
    exact le_trans (by norm_num) (le_max_left _ _)
  · simp only [decayInput]
    exact le_max_right _ _

end VidSynth
